import Mathlib

/-!
Verification of the transit schedule resolution engine of
`val_gardena_app.py` and `query_transport_schedules.py`.

The Python tables (pandas data frames) are embedded as Lean lists of
structures, one structure per relevant column set.  `sort_values` is
modelled by a stable insertion sort, GTFS `HH:MM:SS` strings by a
triple of naturals compared lexicographically (the feed validates the
fixed-width format, under which string comparison coincides with the
componentwise lexicographic comparison), and floating point
latitude/longitude by rational numbers.
-/

/-! ### Strings: a kernel-computable lexicographic order

Pandas compares `str` columns lexicographically by character code.  We
embed that order on `String.data` directly; the resulting relation is
definitionally computable, which lets concrete schedules be evaluated
by `decide`.
-/

/-- Lexicographic order on character lists by character code. -/
def charsLtb : List Char → List Char → Bool
  | [], [] => false
  | [], _ :: _ => true
  | _ :: _, [] => false
  | a :: as, b :: bs =>
    if a.toNat < b.toNat then true
    else if b.toNat < a.toNat then false
    else charsLtb as bs

/-- Lexicographic order on strings by character code, the embedding of
pandas string comparison for sort keys. -/
def strLt (a b : String) : Prop := charsLtb a.data b.data = true

instance : DecidableRel strLt := fun a b => by
  unfold strLt; infer_instance

theorem charsLtb_cons_iff (a b : Char) (as bs : List Char) :
    charsLtb (a :: as) (b :: bs) = true ↔
      a.toNat < b.toNat ∨ (a.toNat = b.toNat ∧ charsLtb as bs = true) := by
  simp only [charsLtb]
  rcases Nat.lt_trichotomy a.toNat b.toNat with h | h | h
  · simp [h]
  · simp [h, Nat.lt_irrefl]
  · simp [h, Nat.lt_asymm h]
    omega

theorem charsLtb_irrefl : ∀ l : List Char, charsLtb l l = false := by
  intro l
  induction l with
  | nil => rfl
  | cons a as ih => simp [charsLtb, ih]

theorem strLt_irrefl (a : String) : ¬ strLt a a := by
  unfold strLt
  simp [charsLtb_irrefl]

theorem charsLtb_trans :
    ∀ l₁ l₂ l₃ : List Char, charsLtb l₁ l₂ = true → charsLtb l₂ l₃ = true →
      charsLtb l₁ l₃ = true := by
  intro l₁
  induction l₁ with
  | nil =>
    intro l₂ l₃ h12 h23
    cases l₂ with
    | nil => exact h23
    | cons b bs =>
      cases l₃ with
      | nil => simp [charsLtb] at h23
      | cons c cs => rfl
  | cons a as ih =>
    intro l₂ l₃ h12 h23
    cases l₂ with
    | nil => simp [charsLtb] at h12
    | cons b bs =>
      cases l₃ with
      | nil => simp [charsLtb] at h23
      | cons c cs =>
        rw [charsLtb_cons_iff] at h12 h23 ⊢
        rcases h12 with h12 | ⟨h12e, h12r⟩
        · rcases h23 with h23 | ⟨h23e, _⟩
          · exact Or.inl (Nat.lt_trans h12 h23)
          · exact Or.inl (h23e ▸ h12)
        · rcases h23 with h23 | ⟨h23e, h23r⟩
          · exact Or.inl (h12e ▸ h23)
          · exact Or.inr ⟨h12e.trans h23e, ih bs cs h12r h23r⟩

theorem strLt_trans {a b c : String} (h1 : strLt a b) (h2 : strLt b c) : strLt a c :=
  charsLtb_trans a.data b.data c.data h1 h2

theorem charsLtb_connex :
    ∀ l₁ l₂ : List Char, charsLtb l₁ l₂ = false → charsLtb l₂ l₁ = false → l₁ = l₂ := by
  intro l₁
  induction l₁ with
  | nil =>
    intro l₂ h12 h21
    cases l₂ with
    | nil => rfl
    | cons b bs => simp [charsLtb] at h12
  | cons a as ih =>
    intro l₂ h12 h21
    cases l₂ with
    | nil => simp [charsLtb] at h21
    | cons b bs =>
      rw [Bool.eq_false_iff] at h12 h21
      rw [Ne, charsLtb_cons_iff] at h12 h21
      push_neg at h12 h21
      have hab : a.toNat = b.toNat := by omega
      have hchar : a = b := Char.ext (UInt32.ext hab)
      have h12r : charsLtb as bs = false := Bool.eq_false_iff.mpr (h12.2 hab)
      have h21r : charsLtb bs as = false := Bool.eq_false_iff.mpr (h21.2 hab.symm)
      rw [hchar, ih bs h12r h21r]

theorem strLt_connex {a b : String} (h1 : ¬ strLt a b) (h2 : ¬ strLt b a) : a = b := by
  unfold strLt at h1 h2
  have hd : a.data = b.data :=
    charsLtb_connex a.data b.data (by simpa using h1) (by simpa using h2)
  cases a; cases b; simp_all

theorem strLt_asymm {a b : String} (h : strLt a b) : ¬ strLt b a := by
  intro h2
  exact strLt_irrefl a (strLt_trans h h2)

/-! ### Times of day

A GTFS `HH:MM:SS` string, validated fixed-width, so that lexicographic
string comparison agrees with lexicographic comparison of the
`(h, m, s)` triple. -/

/-- A validated fixed-width `HH:MM:SS` time-of-day value. -/
structure Hms where
  h : Nat
  m : Nat
  s : Nat
deriving DecidableEq

/-- Embedding of string comparison of fixed-width `HH:MM:SS` values. -/
def Hms.le (a b : Hms) : Prop :=
  a.h < b.h ∨ (a.h = b.h ∧ (a.m < b.m ∨ (a.m = b.m ∧ a.s ≤ b.s)))

instance : DecidableRel Hms.le := fun a b => by
  unfold Hms.le; infer_instance

theorem Hms.le_refl (a : Hms) : Hms.le a a := by
  unfold Hms.le; omega

theorem Hms.le_trans {a b c : Hms} (h1 : Hms.le a b) (h2 : Hms.le b c) : Hms.le a c := by
  unfold Hms.le at h1 h2 ⊢; omega

theorem Hms.le_total (a b : Hms) : Hms.le a b ∨ Hms.le b a := by
  unfold Hms.le; omega

/-- The helper `_time_to_minutes` of `get_station_schedule`: split
`HH:MM:SS` on the colons and keep `int(parts[0]) * 60 + int(parts[1])`;
the seconds field is discarded. -/
def timeToMinutes (t : Hms) : Nat := t.h * 60 + t.m

/-! ### Calendar Resolver (`get_active_service_ids`, val_gardena_app.py 159-176)

One `ServiceCalendar` per row of `transport_calendar.csv`: the seven
day-of-week columns hold the integers 0/1 and the validity range is a
pair of `YYYYMMDD` integers.  One `CalendarException` per row of
`transport_calendar_dates.csv`. -/

structure ServiceCalendar where
  service_id : String
  days : Fin 7 → Nat
  start_date : Nat
  end_date : Nat

structure CalendarException where
  service_id : String
  date : Nat
  exception_type : Nat

/-- `get_active_service_ids`: base set of services whose day-of-week
column for the target weekday is 1 and whose `start_date`/`end_date`
range contains the date (inclusive, compared as integers); then union
in the `exception_type == 1` (ADDED) services dated exactly the target
date and subtract the `exception_type == 2` (REMOVED) ones. -/
def get_active_service_ids (calendar : List ServiceCalendar)
    (calendar_dates : List CalendarException) (weekday : Fin 7) (dateInt : Nat) :
    Finset String :=
  let active := ((calendar.filter (fun c =>
    decide (c.days weekday = 1 ∧ c.start_date ≤ dateInt ∧ dateInt ≤ c.end_date))).map
      (fun c => c.service_id)).toFinset
  let exceptions := calendar_dates.filter (fun e => decide (e.date = dateInt))
  let added := ((exceptions.filter (fun e => decide (e.exception_type = 1))).map
    (fun e => e.service_id)).toFinset
  let removed := ((exceptions.filter (fun e => decide (e.exception_type = 2))).map
    (fun e => e.service_id)).toFinset
  (active ∪ added) \ removed

/-- C1. For every date and service `s`, `s` is active iff (the
calendar row for `s` has the weekday flag set and the date inside the
inclusive validity range, or an ADDED exception for `s` is dated
exactly the target date) and no REMOVED exception for `s` is dated
exactly the target date; REMOVED always overrides ADDED. -/
theorem active_services_iff (calendar : List ServiceCalendar)
    (calendar_dates : List CalendarException) (weekday : Fin 7) (dateInt : Nat)
    (s : String) :
    s ∈ get_active_service_ids calendar calendar_dates weekday dateInt ↔
      (((∃ c ∈ calendar, c.service_id = s ∧ c.days weekday = 1 ∧
            c.start_date ≤ dateInt ∧ dateInt ≤ c.end_date) ∨
          (∃ e ∈ calendar_dates, e.service_id = s ∧ e.date = dateInt ∧
            e.exception_type = 1)) ∧
        ¬ (∃ e ∈ calendar_dates, e.service_id = s ∧ e.date = dateInt ∧
            e.exception_type = 2)) := by
  unfold get_active_service_ids
  simp only [Finset.mem_sdiff, Finset.mem_union, List.mem_toFinset, List.mem_map,
    List.mem_filter, decide_eq_true_eq]
  constructor
  · rintro ⟨hin, hout⟩
    constructor
    · rcases hin with ⟨c, ⟨hc, hcond⟩, hid⟩ | ⟨e, ⟨⟨he, hdate⟩, htype⟩, hid⟩
      · exact Or.inl ⟨c, hc, hid, hcond⟩
      · exact Or.inr ⟨e, he, hid, hdate, htype⟩
    · rintro ⟨e, he, hid, hdate, htype⟩
      exact hout ⟨e, ⟨⟨he, hdate⟩, htype⟩, hid⟩
  · rintro ⟨hin, hout⟩
    constructor
    · rcases hin with ⟨c, hc, hid, hcond⟩ | ⟨e, he, hid, hdate, htype⟩
      · exact Or.inl ⟨c, ⟨hc, hcond⟩, hid⟩
      · exact Or.inr ⟨e, ⟨⟨he, hdate⟩, htype⟩, hid⟩
    · rintro ⟨e, ⟨⟨he, hdate⟩, htype⟩, hid⟩
      exact hout ⟨e, he, hid, hdate, htype⟩

/-! ### The 2-minute proximity walk

The keep-loop shared by `get_station_schedule` (lines 503-513) and the
destination-filtered branch of `main` (lines 1520-1529): walk the rows
in order; keep a row iff its route differs from the last kept row's
route or its minute value is at least 2 minutes past the last kept
row's minute value.  The walk is generic in the row type, given the
route and minutes-since-midnight projections; `none` models the
initial `prev_route = None` state. -/

section Walk

variable {α : Type} (route : α → String) (mins : α → Int)

/-- The keep-loop with an explicit kept/dropped flag per row (Python
collects the kept indices in the list `keep`). -/
def walkFlags : Option (String × Int) → List α → List (α × Bool)
  | _, [] => []
  | none, r :: rest => (r, true) :: walkFlags (some (route r, mins r)) rest
  | some (pr, pm), r :: rest =>
    if route r ≠ pr ∨ 2 ≤ mins r - pm then
      (r, true) :: walkFlags (some (route r, mins r)) rest
    else
      (r, false) :: walkFlags (some (pr, pm)) rest

/-- The rows surviving the keep-loop (`schedule.loc[keep]`). -/
def walkKeep (prev : Option (String × Int)) (l : List α) : List α :=
  (walkFlags route mins prev l).filterMap (fun p => if p.2 then some p.1 else none)

theorem walkFlags_map_fst (prev : Option (String × Int)) (l : List α) :
    (walkFlags route mins prev l).map Prod.fst = l := by
  induction l generalizing prev with
  | nil => cases prev <;> rfl
  | cons r rest ih =>
    match prev with
    | none => simpa [walkFlags] using ih _
    | some (pr, pm) =>
      by_cases h : route r ≠ pr ∨ 2 ≤ mins r - pm
      · simpa [walkFlags, h] using ih _
      · simpa [walkFlags, h] using ih _

theorem walkKeep_nil (prev : Option (String × Int)) : walkKeep route mins prev [] = [] := by
  cases prev <;> rfl

theorem walkKeep_cons_none (r : α) (rest : List α) :
    walkKeep route mins none (r :: rest) =
      r :: walkKeep route mins (some (route r, mins r)) rest := by
  simp [walkKeep, walkFlags]

theorem walkKeep_cons_kept (pr : String) (pm : Int) (r : α) (rest : List α)
    (h : route r ≠ pr ∨ 2 ≤ mins r - pm) :
    walkKeep route mins (some (pr, pm)) (r :: rest) =
      r :: walkKeep route mins (some (route r, mins r)) rest := by
  simp [walkKeep, walkFlags, h]

theorem walkKeep_cons_dropped (pr : String) (pm : Int) (r : α) (rest : List α)
    (h : ¬ (route r ≠ pr ∨ 2 ≤ mins r - pm)) :
    walkKeep route mins (some (pr, pm)) (r :: rest) =
      walkKeep route mins (some (pr, pm)) rest := by
  simp [walkKeep, walkFlags, h]

theorem walkKeep_sublist (prev : Option (String × Int)) (l : List α) :
    List.Sublist (walkKeep route mins prev l) l := by
  induction l generalizing prev with
  | nil => rw [walkKeep_nil]
  | cons r rest ih =>
    match prev with
    | none =>
      rw [walkKeep_cons_none]
      exact List.Sublist.cons₂ r (ih _)
    | some (pr, pm) =>
      by_cases h : route r ≠ pr ∨ 2 ≤ mins r - pm
      · rw [walkKeep_cons_kept route mins pr pm r rest h]
        exact List.Sublist.cons₂ r (ih _)
      · rw [walkKeep_cons_dropped route mins pr pm r rest h]
        exact List.Sublist.cons r (ih _)

/-- Rows sorted by route name first, minutes second: the relative order
in which the keep-loop of `get_station_schedule` visits rows. -/
def routeMinLe (a b : α) : Prop :=
  strLt (route a) (route b) ∨ (route a = route b ∧ mins a ≤ mins b)

/-- Strict version of `routeMinLe`. -/
def routeMinLt (a b : α) : Prop :=
  strLt (route a) (route b) ∨ (route a = route b ∧ mins a < mins b)

/-- Same-route rows are at least 2 minutes apart. -/
def sameRouteGap (a b : α) : Prop :=
  route a = route b → mins a + 2 ≤ mins b

/-- A row is at least 2 minutes past the walk state, if on the state's
route. -/
def okHead : Option (String × Int) → α → Prop
  | none, _ => True
  | some (pr, pm), x => route x = pr → pm + 2 ≤ mins x

/-- The walk state is route/minute below every remaining row, the
invariant the sort establishes for the initial state. -/
def okPrev : Option (String × Int) → List α → Prop
  | none, _ => True
  | some (pr, pm), l => ∀ x ∈ l, strLt pr (route x) ∨ (pr = route x ∧ pm ≤ mins x)

theorem walk_invariant (l : List α) :
    ∀ prev, l.Pairwise (routeMinLe route mins) → okPrev route mins prev l →
      (∀ y ∈ walkKeep route mins prev l, okHead route mins prev y) ∧
        (walkKeep route mins prev l).Pairwise (sameRouteGap route mins) := by
  induction l with
  | nil =>
    intro prev _ _
    rw [walkKeep_nil]
    exact ⟨fun y h => absurd h (List.not_mem_nil y), List.Pairwise.nil⟩
  | cons r rest ih =>
    intro prev hpw hok
    have hpw' : rest.Pairwise (routeMinLe route mins) := hpw.of_cons
    have hhead : ∀ x ∈ rest, routeMinLe route mins r x :=
      fun x hx => List.rel_of_pairwise_cons hpw hx
    have hokr : okPrev route mins (some (route r, mins r)) rest := by
      intro x hx
      exact hhead x hx
    match prev with
    | none =>
      rw [walkKeep_cons_none]
      obtain ⟨ih1, ih2⟩ := ih (some (route r, mins r)) hpw' hokr
      refine ⟨fun y _ => trivial, List.pairwise_cons.mpr ⟨?_, ih2⟩⟩
      intro y hy heq
      exact ih1 y hy heq.symm
    | some (pr, pm) =>
      by_cases h : route r ≠ pr ∨ 2 ≤ mins r - pm
      · rw [walkKeep_cons_kept route mins pr pm r rest h]
        obtain ⟨ih1, ih2⟩ := ih (some (route r, mins r)) hpw' hokr
        constructor
        · intro y hy
          rcases List.mem_cons.mp hy with rfl | hy'
          · intro hre
            rcases h with h | h
            · exact absurd hre h
            · omega
          · intro hre
            have hy2 : pm + 2 ≤ mins y := by
              by_cases hrr : route r = pr
              · have h1 : pm + 2 ≤ mins r := by
                  rcases h with h | h
                  · exact absurd hrr h
                  · omega
                have h2 : mins r + 2 ≤ mins y := ih1 y hy' (hre.trans hrr.symm)
                omega
              · exfalso
                have hmem : y ∈ rest :=
                  List.Sublist.subset
                    (walkKeep_sublist route mins (some (route r, mins r)) rest) hy'
                have h1 := hok r (List.mem_cons_self r rest)
                have h2 := hhead y hmem
                rcases h1 with h1 | h1
                · rcases h2 with h2 | h2
                  · rw [hre] at h2
                    exact strLt_asymm h1 h2
                  · exact hrr (h2.1.trans hre)
                · exact hrr h1.1.symm
            exact hy2
        · exact List.pairwise_cons.mpr ⟨fun y hy hre => ih1 y hy hre.symm, ih2⟩
      · rw [walkKeep_cons_dropped route mins pr pm r rest h]
        have hok' : okPrev route mins (some (pr, pm)) rest := by
          intro x hx
          exact hok x (List.mem_cons_of_mem r hx)
        exact ih (some (pr, pm)) hpw' hok'

theorem walk_fix (l : List α) :
    ∀ prev, (∀ y ∈ l, okHead route mins prev y) →
      l.Pairwise (sameRouteGap route mins) → walkKeep route mins prev l = l := by
  induction l with
  | nil => intro prev _ _; rw [walkKeep_nil]
  | cons r rest ih =>
    intro prev hok hpw
    have hpw' : rest.Pairwise (sameRouteGap route mins) := hpw.of_cons
    have hhead : ∀ x ∈ rest, sameRouteGap route mins r x :=
      fun x hx => List.rel_of_pairwise_cons hpw hx
    have hok' : ∀ y ∈ rest, okHead route mins (some (route r, mins r)) y := by
      intro y hy heq
      exact hhead y hy heq.symm
    match prev with
    | none =>
      rw [walkKeep_cons_none, ih _ hok' hpw']
    | some (pr, pm) =>
      have hcond : route r ≠ pr ∨ 2 ≤ mins r - pm := by
        by_cases hre : route r = pr
        · have := hok r (List.mem_cons_self r rest) hre
          right; omega
        · exact Or.inl hre
      rw [walkKeep_cons_kept route mins pr pm r rest hcond, ih _ hok' hpw']

end Walk


section WalkDrop

variable {α : Type} (route : α → String) (mins : α → Int)

/-- The last kept row on route `R` among the already-processed flagged
rows. -/
def lastKept (R : String) (F : List (α × Bool)) : Option α :=
  ((F.filter (fun q => q.2 && decide (route q.1 = R))).map Prod.fst).getLast?

/-- Minutes value of the last kept row on route `R`, falling back to
the initial walk state when no processed row qualifies. -/
def lastKeptMins (prev : Option (String × Int)) (R : String) (F : List (α × Bool)) :
    Option Int :=
  match lastKept route R F with
  | some q => some (mins q)
  | none =>
    match prev with
    | some (pr, pm) => if pr = R then some pm else none
    | none => none

theorem lastKept_nil (R : String) : lastKept (α := α) route R [] = none := rfl

theorem lastKept_cons_dropped (R : String) (r : α) (F : List (α × Bool)) :
    lastKept route R ((r, false) :: F) = lastKept route R F := by
  simp [lastKept]

theorem lastKept_cons_offroute (R : String) (r : α) (b : Bool) (F : List (α × Bool))
    (h : route r ≠ R) :
    lastKept route R ((r, b) :: F) = lastKept route R F := by
  simp [lastKept, h]

theorem lastKept_cons_kept (R : String) (r : α) (F : List (α × Bool)) (h : route r = R) :
    lastKept route R ((r, true) :: F) = some ((lastKept route R F).getD r) := by
  simp only [lastKept, List.filter_cons]
  have hc : ((r, true).2 && decide (route (r, true).1 = R)) = true := by simp [h]
  rw [hc]
  simp [List.getLast?_cons]

theorem lastKeptMins_eq_some (prev : Option (String × Int)) (R : String)
    (F : List (α × Bool)) (q : α) (h : lastKept route R F = some q) :
    lastKeptMins route mins prev R F = some (mins q) := by
  unfold lastKeptMins
  rw [h]

theorem lastKeptMins_eq_none (prev : Option (String × Int)) (R : String)
    (F : List (α × Bool)) (h : lastKept route R F = none) :
    lastKeptMins route mins prev R F =
      (match prev with
       | some (pr, pm) => if pr = R then some pm else none
       | none => none) := by
  unfold lastKeptMins
  rw [h]

theorem walk_drop_characterization (l : List α) :
    ∀ prev, l.Pairwise (routeMinLe route mins) → okPrev route mins prev l →
      ∀ F₁ p F₂, walkFlags route mins prev l = F₁ ++ p :: F₂ →
        (p.2 = false ↔ ∃ pm, lastKeptMins route mins prev (route p.1) F₁ = some pm ∧
          mins p.1 - pm < 2) := by
  induction l with
  | nil =>
    intro prev _ _ F₁ p F₂ heq
    rw [show walkFlags route mins prev [] = [] from by cases prev <;> rfl] at heq
    exact absurd heq.symm (List.append_ne_nil_of_right_ne_nil F₁ (List.cons_ne_nil p F₂))
  | cons r rest ih =>
    intro prev hpw hok F₁ p F₂ heq
    have hpw' : rest.Pairwise (routeMinLe route mins) := hpw.of_cons
    have hhead : ∀ x ∈ rest, routeMinLe route mins r x :=
      fun x hx => List.rel_of_pairwise_cons hpw hx
    have hokr : okPrev route mins (some (route r, mins r)) rest := by
      intro x hx
      exact hhead x hx
    have hoktl : okPrev route mins prev rest := by
      match prev with
      | none => trivial
      | some (pr, pm) => exact fun x hx => hok x (List.mem_cons_of_mem r hx)
    -- one step of the walk: head flag k, new state prev₂
    obtain ⟨k, prev₂, hw, hok₂, hsplit⟩ :
        ∃ k prev₂, walkFlags route mins prev (r :: rest) =
          (r, k) :: walkFlags route mins prev₂ rest ∧
          okPrev route mins prev₂ rest ∧
          ((k = true ∧ prev₂ = some (route r, mins r) ∧
            (∀ pr pm, prev = some (pr, pm) → ¬ (route r = pr ∧ mins r - pm < 2))) ∨
           (k = false ∧ prev₂ = prev ∧ ∃ pr pm, prev = some (pr, pm) ∧ route r = pr ∧
            mins r - pm < 2)) := by
      match prev with
      | none =>
        exact ⟨true, some (route r, mins r), rfl, hokr,
          Or.inl ⟨rfl, rfl, fun pr pm h => by simp at h⟩⟩
      | some (pr, pm) =>
        by_cases hc : route r ≠ pr ∨ 2 ≤ mins r - pm
        · refine ⟨true, some (route r, mins r), by simp [walkFlags, hc], hokr,
            Or.inl ⟨rfl, rfl, ?_⟩⟩
          intro pr' pm' hpp hcontra
          injection hpp with hpp
          have h1 : pr = pr' := congrArg Prod.fst hpp
          have h2 : pm = pm' := congrArg Prod.snd hpp
          subst h1; subst h2
          rcases hc with hc | hc
          · exact hc hcontra.1
          · have := hcontra.2; omega
        · push_neg at hc
          exact ⟨false, some (pr, pm), by simp [walkFlags, hc.1, hc.2], hoktl,
            Or.inr ⟨rfl, rfl, pr, pm, rfl, hc.1, by omega⟩⟩
    rw [hw] at heq
    match F₁, heq with
    | [], heq =>
      -- the examined row is the head row r
      have hp : p = (r, k) := ((List.cons.injEq _ _ _ _).mp heq).1.symm
      subst hp
      rw [lastKeptMins_eq_none route mins prev (route ((r, k)).1) []
        (lastKept_nil route (route ((r, k)).1))]
      rcases hsplit with ⟨hk, _, hnot⟩ | ⟨hk, _, pr, pm, hprev, hroute, hgap⟩
      · subst hk
        refine iff_of_false (by simp) ?_
        rintro ⟨pm, hpm, hgap⟩
        match prev, hpm with
        | some (pr', pm'), hpm =>
          have hiff : pr' = route (r, true).1 := by
            by_cases hpr : pr' = route (r, true).1
            · exact hpr
            · simp [hpr] at hpm
          simp [hiff] at hpm
          refine hnot pr' pm' rfl ⟨hiff.symm, ?_⟩
          have hg : mins r - pm < 2 := hgap
          omega
      · subst hk
        refine iff_of_true rfl ?_
        subst hprev
        exact ⟨pm, by simp [← hroute], by simpa using hgap⟩
    | q :: F₁', heq =>
      have hq : q = (r, k) := ((List.cons.injEq _ _ _ _).mp heq).1.symm
      have heq' : walkFlags route mins prev₂ rest = F₁' ++ p :: F₂ :=
        ((List.cons.injEq _ _ _ _).mp heq).2
      subst hq
      have hpmem : p.1 ∈ rest := by
        have hmap := walkFlags_map_fst route mins prev₂ rest
        rw [heq'] at hmap
        rw [← hmap]
        simp
      have hrp : strLt (route r) (route p.1) ∨ route r = route p.1 := by
        rcases hhead p.1 hpmem with h | h
        · exact Or.inl h
        · exact Or.inr h.1
      have htrans : lastKeptMins route mins prev (route p.1) ((r, k) :: F₁') =
          lastKeptMins route mins prev₂ (route p.1) F₁' := by
        rcases hsplit with ⟨hk, hprev₂, _⟩ | ⟨hk, hprev₂, pr, pm, hprev, hroute, _⟩
        · subst hk; subst hprev₂
          by_cases hrR : route r = route p.1
          · have hkept := lastKept_cons_kept route (route p.1) r F₁' hrR
            cases hlast : lastKept route (route p.1) F₁' with
            | some z =>
              rw [hlast] at hkept
              rw [lastKeptMins_eq_some route mins prev (route p.1) _ z (by simpa using hkept),
                lastKeptMins_eq_some route mins _ (route p.1) F₁' z hlast]
            | none =>
              rw [hlast] at hkept
              rw [lastKeptMins_eq_some route mins prev (route p.1) _ r (by simpa using hkept),
                lastKeptMins_eq_none route mins _ (route p.1) F₁' hlast]
              simp [hrR]
          · have hoff := lastKept_cons_offroute route (route p.1) r true F₁' hrR
            cases hlast : lastKept route (route p.1) F₁' with
            | some z =>
              rw [hlast] at hoff
              rw [lastKeptMins_eq_some route mins prev (route p.1) _ z hoff,
                lastKeptMins_eq_some route mins _ (route p.1) F₁' z hlast]
            | none =>
              rw [hlast] at hoff
              rw [lastKeptMins_eq_none route mins prev (route p.1) _ hoff,
                lastKeptMins_eq_none route mins _ (route p.1) F₁' hlast]
              simp only [hrR, if_false]
              match prev with
              | none => rfl
              | some (pr, pm) =>
                have hprR : pr ≠ route p.1 := by
                  intro hcontra
                  rcases hok r (List.mem_cons_self r rest) with h1 | h1
                  · rcases hrp with h2 | h2
                    · exact absurd (strLt_trans h1 h2) (hcontra ▸ strLt_irrefl pr)
                    · exact hrR (h2.trans rfl)
                  · exact hrR (h1.1.symm.trans hcontra)
                simp [hprR]
        · subst hk; subst hprev₂
          have hdrop := lastKept_cons_dropped route (route p.1) r F₁'
          cases hlast : lastKept route (route p.1) F₁' with
          | some z =>
            rw [hlast] at hdrop
            rw [lastKeptMins_eq_some route mins _ (route p.1) _ z hdrop,
              lastKeptMins_eq_some route mins _ (route p.1) F₁' z hlast]
          | none =>
            rw [hlast] at hdrop
            rw [lastKeptMins_eq_none route mins _ (route p.1) _ hdrop,
              lastKeptMins_eq_none route mins _ (route p.1) F₁' hlast]
      rw [htrans]
      exact ih prev₂ hpw' hok₂ F₁' p F₂ heq'

end WalkDrop

/-! ### Departure Deduplicator (`get_station_schedule`, lines 477-518)

The joined station schedule frame, restricted to the columns the dedup
pass reads.  The pass computes each route's modal destination
(`value_counts().index[0]`), sorts by
`['route_short_name', '_minutes', '_is_main']` with `_is_main`
descending, walks the rows with the 2-minute window, and re-sorts the
survivors by `departure_time`. -/

structure SchedRec where
  route_short_name : String
  destination : String
  departure_time : Hms
deriving DecidableEq

/-- Pandas `value_counts().index[0]`: a value with the maximal number
of occurrences, the first-encountered one among ties. -/
def mostCommon? {β : Type} [DecidableEq β] : List β → Option β
  | [] => none
  | a :: l =>
    some (l.foldl (fun best x =>
      if (a :: l).count x > (a :: l).count best then x else best) a)

/-- The modal destination of a route over the full record set
(`route_main_dest`), with the `.get(route, '')` default. -/
def routeMainDest (l : List SchedRec) (r : String) : String :=
  match mostCommon?
      ((l.filter (fun x => decide (x.route_short_name = r))).map (fun x => x.destination)) with
  | some d => d
  | none => ""

/-- The `_is_main` helper column. -/
def isMain (l : List SchedRec) (x : SchedRec) : Bool :=
  decide (x.destination = routeMainDest l x.route_short_name)

/-- The `_minutes` helper column. -/
def schedMins (x : SchedRec) : Int := (timeToMinutes x.departure_time : Int)

/-- Route projection for the walk. -/
def schedRoute (x : SchedRec) : String := x.route_short_name

/-- The `sort_values(['route_short_name', '_minutes', '_is_main'],
ascending=[True, True, False])` key order; `m` is the record set the
modal destinations are computed from. -/
def keyLe (m : List SchedRec) (a b : SchedRec) : Prop :=
  strLt a.route_short_name b.route_short_name ∨
    (a.route_short_name = b.route_short_name ∧
      (schedMins a < schedMins b ∨
        (schedMins a = schedMins b ∧ (isMain m b = true → isMain m a = true))))

instance (m : List SchedRec) : DecidableRel (keyLe m) := fun a b => by
  unfold keyLe; infer_instance

/-- The final `sort_values('departure_time')` key order. -/
def timeLe (a b : SchedRec) : Prop := Hms.le a.departure_time b.departure_time

instance : DecidableRel timeLe := fun a b => by
  unfold timeLe; infer_instance

/-- The dedup pass of `get_station_schedule`, lines 481-517: modal
destinations, three-key sort, 2-minute walk, final re-sort by
departure time. -/
def dedupPass (l : List SchedRec) : List SchedRec :=
  List.insertionSort timeLe
    (walkKeep schedRoute schedMins none (List.insertionSort (keyLe l) l))

theorem keyLe_total (m : List SchedRec) (a b : SchedRec) : keyLe m a b ∨ keyLe m b a := by
  unfold keyLe
  by_cases hab : strLt a.route_short_name b.route_short_name
  · exact Or.inl (Or.inl hab)
  · by_cases hba : strLt b.route_short_name a.route_short_name
    · exact Or.inr (Or.inl hba)
    · have heq : a.route_short_name = b.route_short_name := strLt_connex hab hba
      rcases Int.lt_trichotomy (schedMins a) (schedMins b) with hm | hm | hm
      · exact Or.inl (Or.inr ⟨heq, Or.inl hm⟩)
      · by_cases hmain : isMain m a = true
        · exact Or.inl (Or.inr ⟨heq, Or.inr ⟨hm, fun _ => hmain⟩⟩)
        · refine Or.inr (Or.inr ⟨heq.symm, Or.inr ⟨hm.symm, fun hb => ?_⟩⟩)
          exact absurd hb hmain
      · exact Or.inr (Or.inr ⟨heq.symm, Or.inl hm⟩)

theorem keyLe_trans (m : List SchedRec) (a b c : SchedRec)
    (h1 : keyLe m a b) (h2 : keyLe m b c) : keyLe m a c := by
  unfold keyLe at h1 h2 ⊢
  rcases h1 with h1 | ⟨h1e, h1m⟩
  · rcases h2 with h2 | ⟨h2e, _⟩
    · exact Or.inl (strLt_trans h1 h2)
    · exact Or.inl (h2e ▸ h1)
  · rcases h2 with h2 | ⟨h2e, h2m⟩
    · exact Or.inl (h1e ▸ h2)
    · refine Or.inr ⟨h1e.trans h2e, ?_⟩
      rcases h1m with h1m | ⟨h1m, h1i⟩
      · rcases h2m with h2m | ⟨h2m, _⟩
        · exact Or.inl (h1m.trans h2m)
        · exact Or.inl (h2m ▸ h1m)
      · rcases h2m with h2m | ⟨h2m, h2i⟩
        · exact Or.inl (h1m ▸ h2m)
        · exact Or.inr ⟨h1m.trans h2m, fun hc => h1i (h2i hc)⟩

theorem timeLe_total (a b : SchedRec) : timeLe a b ∨ timeLe b a := Hms.le_total _ _

theorem timeLe_trans (a b c : SchedRec) (h1 : timeLe a b) (h2 : timeLe b c) : timeLe a c :=
  Hms.le_trans h1 h2

theorem keyLe_imp_routeMinLe (m : List SchedRec) (a b : SchedRec) (h : keyLe m a b) :
    routeMinLe schedRoute schedMins a b := by
  rcases h with h | ⟨he, hm⟩
  · exact Or.inl h
  · refine Or.inr ⟨he, ?_⟩
    rcases hm with hm | ⟨hm, _⟩
    · exact le_of_lt hm
    · exact le_of_eq hm

/-- Two lists that are permutations of each other, one sorted weakly
and one sorted strictly by route/minutes, are equal. -/
theorem sorted_perm_strict_eq {α : Type} (route : α → String) (mins : α → Int) :
    ∀ L K : List α, L.Perm K → L.Pairwise (routeMinLe route mins) →
      K.Pairwise (routeMinLt route mins) → L = K := by
  intro L
  induction L with
  | nil =>
    intro K hperm _ _
    exact (List.Perm.nil_eq hperm).symm ▸ rfl
  | cons a t ih =>
    intro K hperm hL hK
    match K with
    | [] => exact absurd hperm.symm (by simp [List.Perm.nil_eq])
    | b :: u =>
      by_cases hab : a = b
      · subst hab
        rw [ih u (hperm.cons_inv) hL.of_cons hK.of_cons]
      · exfalso
        have hbL : b ∈ a :: t := hperm.symm.subset (List.mem_cons_self b u)
        have hbt : b ∈ t := by
          rcases List.mem_cons.mp hbL with h | h
          · exact absurd h.symm hab
          · exact h
        have haK : a ∈ b :: u := hperm.subset (List.mem_cons_self a t)
        have hau : a ∈ u := by
          rcases List.mem_cons.mp haK with h | h
          · exact absurd h hab
          · exact h
        have h1 : routeMinLe route mins a b := List.rel_of_pairwise_cons hL hbt
        have h2 : routeMinLt route mins b a := List.rel_of_pairwise_cons hK hau
        rcases h1 with h1 | ⟨h1e, h1m⟩
        · rcases h2 with h2 | ⟨h2e, _⟩
          · exact strLt_asymm h1 h2
          · exact strLt_irrefl _ (h2e ▸ h1)
        · rcases h2 with h2 | ⟨h2e, h2m⟩
          · exact strLt_irrefl _ (h1e ▸ h2)
          · omega

/-- C6. The departure dedup pass is idempotent: applied to its own
output it yields that output unchanged, for every station schedule. -/
theorem dedupPass_idempotent (l : List SchedRec) :
    dedupPass (dedupPass l) = dedupPass l := by
  haveI : IsTotal SchedRec (keyLe l) := ⟨keyLe_total l⟩
  haveI : IsTrans SchedRec (keyLe l) := ⟨keyLe_trans l⟩
  haveI : IsTotal SchedRec timeLe := ⟨timeLe_total⟩
  haveI : IsTrans SchedRec timeLe := ⟨timeLe_trans⟩
  haveI : IsTotal SchedRec (keyLe (dedupPass l)) := ⟨keyLe_total (dedupPass l)⟩
  haveI : IsTrans SchedRec (keyLe (dedupPass l)) := ⟨keyLe_trans (dedupPass l)⟩
  have hSsorted : (List.insertionSort (keyLe l) l).Sorted (keyLe l) :=
    List.sorted_insertionSort (keyLe l) l
  have hSpw : (List.insertionSort (keyLe l) l).Pairwise (routeMinLe schedRoute schedMins) :=
    hSsorted.imp (fun h => keyLe_imp_routeMinLe l _ _ h)
  have hGap := (walk_invariant schedRoute schedMins (List.insertionSort (keyLe l) l)
    none hSpw trivial).2
  have hKsub := walkKeep_sublist schedRoute schedMins none (List.insertionSort (keyLe l) l)
  have hKpw : (walkKeep schedRoute schedMins none
      (List.insertionSort (keyLe l) l)).Pairwise (routeMinLe schedRoute schedMins) :=
    hSpw.sublist hKsub
  have hStrict : (walkKeep schedRoute schedMins none
      (List.insertionSort (keyLe l) l)).Pairwise (routeMinLt schedRoute schedMins) := by
    refine (hKpw.and hGap).imp ?_
    rintro a b ⟨h1, h2⟩
    rcases h1 with h1 | ⟨he, _⟩
    · exact Or.inl h1
    · have := h2 he
      exact Or.inr ⟨he, by omega⟩
  have hOutPerm : (dedupPass l).Perm
      (walkKeep schedRoute schedMins none (List.insertionSort (keyLe l) l)) :=
    List.perm_insertionSort timeLe _
  have hLperm : (List.insertionSort (keyLe (dedupPass l)) (dedupPass l)).Perm
      (walkKeep schedRoute schedMins none (List.insertionSort (keyLe l) l)) :=
    (List.perm_insertionSort _ _).trans hOutPerm
  have hLsorted : (List.insertionSort (keyLe (dedupPass l)) (dedupPass l)).Sorted
      (keyLe (dedupPass l)) := List.sorted_insertionSort _ _
  have hLpw : (List.insertionSort (keyLe (dedupPass l)) (dedupPass l)).Pairwise
      (routeMinLe schedRoute schedMins) :=
    hLsorted.imp (fun h => keyLe_imp_routeMinLe (dedupPass l) _ _ h)
  have hLK : List.insertionSort (keyLe (dedupPass l)) (dedupPass l) =
      walkKeep schedRoute schedMins none (List.insertionSort (keyLe l) l) :=
    sorted_perm_strict_eq schedRoute schedMins _ _ hLperm hLpw hStrict
  have hfix : walkKeep schedRoute schedMins none
      (walkKeep schedRoute schedMins none (List.insertionSort (keyLe l) l)) =
      walkKeep schedRoute schedMins none (List.insertionSort (keyLe l) l) :=
    walk_fix schedRoute schedMins _ none (fun y _ => trivial) hGap
  show List.insertionSort timeLe
      (walkKeep schedRoute schedMins none
        (List.insertionSort (keyLe (dedupPass l)) (dedupPass l))) = dedupPass l
  rw [hLK, hfix]
  rfl

instance {α : Type} (route : α → String) (mins : α → Int) :
    DecidableRel (routeMinLe route mins) := fun a b => by
  unfold routeMinLe; infer_instance

instance {α : Type} (route : α → String) (mins : α → Int) :
    DecidableRel (routeMinLt route mins) := fun a b => by
  unfold routeMinLt; infer_instance

/-- Two same-route rows exactly 2 minutes apart. -/
def exTwoMin : List SchedRec :=
  [⟨"350", "Ortisei", ⟨8, 0, 0⟩⟩, ⟨"350", "Ortisei", ⟨8, 2, 0⟩⟩]

/-- Two same-route rows 1 minute apart. -/
def exOneMin : List SchedRec :=
  [⟨"350", "Ortisei", ⟨8, 0, 0⟩⟩, ⟨"350", "Ortisei", ⟨8, 1, 0⟩⟩]

/-- C4. In the dedup walk over the route/minute-sorted schedule, a row
is dropped iff the minute difference to the last kept row on its route
is strictly less than 2; two same-route rows exactly 2 minutes apart
are both kept, and two same-route rows 1 minute apart are merged into
one. -/
theorem dedup_window_rule :
    (∀ l : List SchedRec, l.Pairwise (routeMinLe schedRoute schedMins) →
      ∀ F₁ p F₂, walkFlags schedRoute schedMins none l = F₁ ++ p :: F₂ →
        (p.2 = false ↔ ∃ q, lastKept schedRoute p.1.route_short_name F₁ = some q ∧
          schedMins p.1 - schedMins q < 2))
    ∧ dedupPass exTwoMin = exTwoMin
    ∧ dedupPass exOneMin = [⟨"350", "Ortisei", ⟨8, 0, 0⟩⟩] := by
  refine ⟨?_, by decide, by decide⟩
  intro l hpw F₁ p F₂ heq
  have hch := walk_drop_characterization schedRoute schedMins l none hpw trivial F₁ p F₂ heq
  rw [hch]
  cases hlast : lastKept schedRoute p.1.route_short_name F₁ with
  | some q =>
    have hmins := lastKeptMins_eq_some schedRoute schedMins none
      (schedRoute p.1) F₁ q hlast
    rw [hmins]
    constructor
    · rintro ⟨pm, hpm, hgap⟩
      injection hpm with hpm
      exact ⟨q, rfl, hpm ▸ hgap⟩
    · rintro ⟨q', hq', hgap⟩
      injection hq' with hq'
      exact ⟨schedMins q, rfl, hq'.symm ▸ hgap⟩
  | none =>
    have hmins := lastKeptMins_eq_none schedRoute schedMins none
      (schedRoute p.1) F₁ hlast
    rw [hmins]
    simp

/-- Witness for C4: the 1-minute-apart schedule, where the second row
is dropped against the first kept row. -/
theorem dedup_window_rule_witness :
    walkFlags schedRoute schedMins none exOneMin =
      [(⟨"350", "Ortisei", ⟨8, 0, 0⟩⟩, true), (⟨"350", "Ortisei", ⟨8, 1, 0⟩⟩, false)] ∧
    (((⟨"350", "Ortisei", ⟨8, 1, 0⟩⟩ : SchedRec), false).2 = false ↔
      ∃ q, lastKept schedRoute "350" [((⟨"350", "Ortisei", ⟨8, 0, 0⟩⟩ : SchedRec), true)] =
          some q ∧
        schedMins (⟨"350", "Ortisei", ⟨8, 1, 0⟩⟩ : SchedRec) - schedMins q < 2) :=
  ⟨by decide,
    dedup_window_rule.1 exOneMin (by decide)
      [((⟨"350", "Ortisei", ⟨8, 0, 0⟩⟩ : SchedRec), true)]
      ((⟨"350", "Ortisei", ⟨8, 1, 0⟩⟩ : SchedRec), false) [] (by decide)⟩

/-- A station record set whose route 350 has modal destination Y, with
a 2-minute window containing a non-modal row at 8:00 and a modal row
at 8:01. -/
def exModal : List SchedRec :=
  [⟨"350", "X", ⟨8, 0, 0⟩⟩, ⟨"350", "Y", ⟨8, 1, 0⟩⟩, ⟨"350", "Y", ⟨8, 10, 0⟩⟩,
   ⟨"350", "Y", ⟨8, 20, 0⟩⟩]

/-- C5 counterexample: the modal destination of route 350 is Y, yet in
the 8:00/8:01 window the surviving row is the non-modal X row — the
earlier minute wins over the modal destination, so the claim that the
modal-destination row survives the window is false. -/
theorem dedup_modal_counterexample :
    routeMainDest exModal "350" = "Y" ∧
    dedupPass exModal =
      [⟨"350", "X", ⟨8, 0, 0⟩⟩, ⟨"350", "Y", ⟨8, 10, 0⟩⟩, ⟨"350", "Y", ⟨8, 20, 0⟩⟩] :=
  ⟨by decide, by decide⟩

theorem mostCommon_pair {β : Type} [DecidableEq β] (x y : β) :
    mostCommon? [x, y] = some x := by
  by_cases h : y = x
  · subst h
    simp [mostCommon?]
  · simp only [mostCommon?, List.foldl]
    have hy : List.count y [x, y] = 1 := by
      simp [List.count_cons, h]
    have hxy : ¬ x = y := fun hxy => h hxy.symm
    have hx : List.count x [x, y] = 1 := by
      simp [List.count_cons, hxy]
    simp [hy, hx]

theorem isMain_pair_left (r₁ r₂ : SchedRec)
    (h : r₁.route_short_name = r₂.route_short_name) : isMain [r₁, r₂] r₁ = true := by
  unfold isMain routeMainDest
  have hf : ([r₁, r₂].filter fun x => decide (x.route_short_name = r₁.route_short_name)) =
      [r₁, r₂] := by
    simp [List.filter_cons, h.symm]
  rw [hf]
  simp [mostCommon_pair]

/-- Rows of one route with a window at minute 480: the non-modal X row
at 08:00:30 precedes the modal Y row at 08:00:00 in input order, plus
a later Y row making Y modal. -/
def exEqMin : List SchedRec :=
  [⟨"350", "X", ⟨8, 0, 30⟩⟩, ⟨"350", "Y", ⟨8, 0, 0⟩⟩, ⟨"350", "Y", ⟨9, 0, 0⟩⟩]

/-- C5 amended: the modal-destination preference acts only among rows
with equal minute values (the modal row is sorted first and survives);
across different minutes the earliest-minute row survives regardless
of destination — shown in general for two-row windows, and on a
concrete equal-minute window where the modal row wins. -/
theorem dedup_modal_amended :
    (∀ r₁ r₂ : SchedRec, r₁.route_short_name = r₂.route_short_name →
      schedMins r₁ - schedMins r₂ < 2 → schedMins r₂ - schedMins r₁ < 2 →
      dedupPass [r₁, r₂] = [if schedMins r₁ ≤ schedMins r₂ then r₁ else r₂])
    ∧ dedupPass exEqMin = [⟨"350", "Y", ⟨8, 0, 0⟩⟩, ⟨"350", "Y", ⟨9, 0, 0⟩⟩]
    ∧ routeMainDest exEqMin "350" = "Y" := by
  refine ⟨?_, by decide, by decide⟩
  intro r₁ r₂ hroute h12 h21
  unfold dedupPass
  simp only [List.insertionSort, List.orderedInsert]
  have hnotlt : ¬ strLt r₁.route_short_name r₂.route_short_name := by
    rw [hroute]; exact strLt_irrefl _
  rcases Int.lt_trichotomy (schedMins r₁) (schedMins r₂) with hm | hm | hm
  · have hk : keyLe [r₁, r₂] r₁ r₂ := Or.inr ⟨hroute, Or.inl hm⟩
    rw [if_pos hk, walkKeep_cons_none,
      walkKeep_cons_dropped schedRoute schedMins (schedRoute r₁) (schedMins r₁) r₂ []
        (by push_neg; exact ⟨hroute.symm, by omega⟩),
      walkKeep_nil, if_pos (le_of_lt hm)]
    simp [List.insertionSort, List.orderedInsert]
  · have hk : keyLe [r₁, r₂] r₁ r₂ :=
      Or.inr ⟨hroute, Or.inr ⟨hm, fun _ => isMain_pair_left r₁ r₂ hroute⟩⟩
    rw [if_pos hk, walkKeep_cons_none,
      walkKeep_cons_dropped schedRoute schedMins (schedRoute r₁) (schedMins r₁) r₂ []
        (by push_neg; exact ⟨hroute.symm, by omega⟩),
      walkKeep_nil, if_pos (le_of_eq hm)]
    simp [List.insertionSort, List.orderedInsert]
  · have hk : ¬ keyLe [r₁, r₂] r₁ r₂ := by
      rintro (hk | ⟨_, hk | ⟨hk, _⟩⟩)
      · exact hnotlt hk
      · omega
      · omega
    rw [if_neg hk, walkKeep_cons_none,
      walkKeep_cons_dropped schedRoute schedMins (schedRoute r₂) (schedMins r₂) r₁ []
        (by push_neg; exact ⟨hroute, by omega⟩),
      walkKeep_nil, if_neg (not_le.mpr hm)]
    simp [List.insertionSort, List.orderedInsert]

/-- Witness for the amended C5: two same-route rows one minute apart
with distinct destinations; the earlier survives. -/
theorem dedup_modal_amended_witness :
    dedupPass [⟨"350", "A", ⟨8, 0, 0⟩⟩, ⟨"350", "B", ⟨8, 1, 0⟩⟩] =
      [⟨"350", "A", ⟨8, 0, 0⟩⟩] := by
  have h := dedup_modal_amended.1 ⟨"350", "A", ⟨8, 0, 0⟩⟩ ⟨"350", "B", ⟨8, 1, 0⟩⟩
    rfl (by decide) (by decide)
  simpa using h

/-- Two rows 61 seconds apart whose minute fields differ by 2. -/
def ex61 : List SchedRec :=
  [⟨"350", "Ortisei", ⟨8, 0, 59⟩⟩, ⟨"350", "Ortisei", ⟨8, 2, 0⟩⟩]

/-- Two rows 119 seconds apart whose minute fields differ by 1. -/
def ex119 : List SchedRec :=
  [⟨"350", "Ortisei", ⟨8, 0, 0⟩⟩, ⟨"350", "Ortisei", ⟨8, 1, 59⟩⟩]

/-- C10. The window comparison converts `HH:MM:SS` to `HH*60+MM`,
discarding seconds entirely: records at 08:00:59 and 08:02:00 (61
seconds apart) are both kept, while records at 08:00:00 and 08:01:59
(119 seconds apart) are merged. -/
theorem dedup_seconds_ignored :
    (∀ hh mm s₁ s₂ : Nat, timeToMinutes ⟨hh, mm, s₁⟩ = timeToMinutes ⟨hh, mm, s₂⟩)
    ∧ dedupPass ex61 = ex61
    ∧ dedupPass ex119 = [⟨"350", "Ortisei", ⟨8, 0, 0⟩⟩] :=
  ⟨fun _ _ _ _ => rfl, by decide, by decide⟩

/-! ### Destination Resolver (`compute_trip_destinations`, lines 101-156) -/

structure Stop where
  stop_id : String
  stop_name : String
  stop_lat : ℚ
  stop_lon : ℚ
  location : String
  region : String
deriving DecidableEq

structure StopTimeRow where
  trip_id : String
  stop_id : String
  arrival_time : Hms
  departure_time : Hms
  stop_sequence : Nat
deriving DecidableEq

structure Trip where
  trip_id : String
  route_id : String
  service_id : String
  trip_headsign : Option String
deriving DecidableEq

/-- One row of `st_with_names` restricted to a single trip: sequence
number, joined stop name and coordinates. -/
structure TripStopRow where
  stop_sequence : Nat
  stop_name : String
  stop_lat : ℚ
  stop_lon : ℚ
deriving DecidableEq

/-- The `sort_values('stop_sequence')` key. -/
def seqLe (a b : TripStopRow) : Prop := a.stop_sequence ≤ b.stop_sequence

instance : DecidableRel seqLe := fun a b => by
  unfold seqLe; infer_instance

/-- Squared planar distance `dlat ** 2 + dlon ** 2` from the first row. -/
def distSqFrom (first x : TripStopRow) : ℚ :=
  (x.stop_lat - first.stop_lat) ^ 2 + (x.stop_lon - first.stop_lon) ^ 2

/-- Pandas `idxmax`: the first row attaining the maximal value. -/
def idxmaxBy (f : TripStopRow → ℚ) : List TripStopRow → Option TripStopRow
  | [] => none
  | a :: l => some (l.foldl (fun best x => if f best < f x then x else best) a)

/-- The trip's rows sorted by sequence number. -/
def tripOrdered (group : List TripStopRow) : List TripStopRow :=
  List.insertionSort seqLe group

/-- `_geo_fallback`: order the trip's rows by `stop_sequence`; when the
first and last stop share the display name and the trip has more than
two rows (a circular trip), return the name of the row geometrically
farthest from the first (squared planar distance, first max on ties);
otherwise the last row's name.  An empty group has no fallback (the
source's `groupby` never produces one). -/
def geoFallback (group : List TripStopRow) : Option String :=
  match (tripOrdered group).head?, (tripOrdered group).getLast? with
  | some first, last? =>
    match last? with
    | some last =>
      if first.stop_name = last.stop_name ∧ 2 < (tripOrdered group).length then
        (idxmaxBy (distSqFrom first) (tripOrdered group)).map (fun x => x.stop_name)
      else some last.stop_name
    | none => none
  | none, _ => none

theorem foldl_max_mem (f : TripStopRow → ℚ) :
    ∀ (l : List TripStopRow) (a : TripStopRow),
      l.foldl (fun best x => if f best < f x then x else best) a ∈ a :: l := by
  intro l
  induction l with
  | nil => intro a; exact List.mem_singleton.mpr rfl
  | cons b l ih =>
    intro a
    rw [List.foldl_cons]
    rcases List.mem_cons.mp (ih (if f a < f b then b else a)) with h | h
    · rw [h]
      by_cases hab : f a < f b
      · simp [hab]
      · simp [hab]
    · exact List.mem_cons_of_mem a (List.mem_cons_of_mem b h)

theorem foldl_max_ge (f : TripStopRow → ℚ) :
    ∀ (l : List TripStopRow) (a : TripStopRow), ∀ x ∈ a :: l,
      f x ≤ f (l.foldl (fun best x => if f best < f x then x else best) a) := by
  intro l
  induction l with
  | nil =>
    intro a x hx
    rw [List.mem_singleton.mp hx]
    exact le_refl _
  | cons b l ih =>
    intro a x hx
    rw [List.foldl_cons]
    have hstep : f a ≤ f (if f a < f b then b else a) ∧ f b ≤ f (if f a < f b then b else a) := by
      by_cases hab : f a < f b
      · simp [hab]
        exact le_of_lt hab
      · simp [hab]
        exact le_of_not_lt hab
    have hrec := ih (if f a < f b then b else a)
    rcases List.mem_cons.mp hx with rfl | hx'
    · exact hstep.1.trans (hrec _ (List.mem_cons_self _ _))
    · rcases List.mem_cons.mp hx' with rfl | hx''
      · exact hstep.2.trans (hrec _ (List.mem_cons_self _ _))
      · exact hrec x (List.mem_cons_of_mem _ hx'')

/-- The claim's literal circular trip: A(0,0) → B(1,0) → C(0,5) → A. -/
def exABCA : List TripStopRow :=
  [⟨1, "A", 0, 0⟩, ⟨2, "B", 1, 0⟩, ⟨3, "C", 0, 5⟩, ⟨4, "A", 0, 0⟩]

/-- C2. Geometric fallback: for a circular trip (first and last name
equal, more than two rows) the result is the name of a row of maximal
squared planar distance from the first row; otherwise it is the last
row's name; and on A(0,0), B(1,0), C(0,5), A the result is C. -/
theorem geo_fallback_spec :
    (∀ (group : List TripStopRow) (first last : TripStopRow),
      (tripOrdered group).head? = some first →
      (tripOrdered group).getLast? = some last →
      first.stop_name = last.stop_name → 2 < (tripOrdered group).length →
      ∃ m ∈ tripOrdered group, geoFallback group = some m.stop_name ∧
        ∀ x ∈ tripOrdered group, distSqFrom first x ≤ distSqFrom first m)
    ∧ (∀ (group : List TripStopRow) (first last : TripStopRow),
      (tripOrdered group).head? = some first →
      (tripOrdered group).getLast? = some last →
      ¬ (first.stop_name = last.stop_name ∧ 2 < (tripOrdered group).length) →
      geoFallback group = some last.stop_name)
    ∧ geoFallback exABCA = some "C" := by
  refine ⟨?_, ?_, ?_⟩
  · intro group first last h1 h2 hname hlen
    have hred : geoFallback group =
        (idxmaxBy (distSqFrom first) (tripOrdered group)).map (fun x => x.stop_name) := by
      unfold geoFallback
      rw [h1, h2]
      simp [hname, hlen]
    obtain ⟨o, rest, hor⟩ : ∃ o rest, tripOrdered group = o :: rest := by
      cases ho : tripOrdered group with
      | nil => rw [ho] at h1; exact absurd h1 (by simp)
      | cons o rest => exact ⟨o, rest, rfl⟩
    refine ⟨rest.foldl (fun best x => if distSqFrom first best < distSqFrom first x then x
      else best) o, ?_, ?_, ?_⟩
    · rw [hor]
      exact foldl_max_mem (distSqFrom first) rest o
    · rw [hred, hor]
      rfl
    · intro x hx
      rw [hor] at hx
      exact foldl_max_ge (distSqFrom first) rest o x hx
  · intro group first last h1 h2 hnot
    unfold geoFallback
    rw [h1, h2]
    simp [hnot]
  · norm_num [geoFallback, tripOrdered, List.insertionSort, List.orderedInsert, seqLe,
      idxmaxBy, distSqFrom, exABCA, List.foldl]

/-- Witness for C2: the circular part applied to the literal A, B, C, A
trip and the linear part applied to a two-stop trip. -/
theorem geo_fallback_spec_witness :
    (∃ m ∈ tripOrdered exABCA, geoFallback exABCA = some m.stop_name ∧
      ∀ x ∈ tripOrdered exABCA,
        distSqFrom ⟨1, "A", 0, 0⟩ x ≤ distSqFrom ⟨1, "A", 0, 0⟩ m)
    ∧ geoFallback [⟨1, "A", 0, 0⟩, ⟨2, "B", 1, 0⟩] = some "B" :=
  ⟨geo_fallback_spec.1 exABCA ⟨1, "A", 0, 0⟩ ⟨4, "A", 0, 0⟩ (by decide) (by decide) rfl
      (by decide),
    geo_fallback_spec.2.1 [⟨1, "A", 0, 0⟩, ⟨2, "B", 1, 0⟩] ⟨1, "A", 0, 0⟩ ⟨2, "B", 1, 0⟩
      (by decide) (by decide) (by decide)⟩

/-- Whitespace trimming on the character list, the embedding of
`str.strip()` (`String.trim` in Lean is not kernel-reducible). -/
def trimChars (l : List Char) : List Char :=
  ((l.dropWhile (fun c => c.isWhitespace)).reverse.dropWhile (fun c => c.isWhitespace)).reverse

/-- The embedding of Python `str.strip()`. -/
def strTrim (s : String) : String := String.mk (trimChars s.data)

/-- The blank-headsign test of `compute_trip_destinations`:
`trip_headsign.isna() | (trip_headsign.str.strip() == '')`. -/
def blankHeadsign : Option String → Bool
  | none => true
  | some hs => decide (strTrim hs = "")

/-- Left-join lookup of a stop row by identifier (`merge(...,
on='stop_id', how='left')` hits the first matching row). -/
def lookupStop (stops : List Stop) (sid : String) : Option Stop :=
  stops.find? (fun s => s.stop_id == sid)

/-- The `st_with_names` join keyed by trip identifier.  A stop-times
row whose stop id is missing from the stops table carries NaN name and
coordinates in the source; such rows are dropped here (no claim
exercises them). -/
def stWithNames (stop_times : List StopTimeRow) (stops : List Stop) :
    List (String × TripStopRow) :=
  stop_times.filterMap (fun r =>
    (lookupStop stops r.stop_id).map (fun s =>
      (r.trip_id, ⟨r.stop_sequence, s.stop_name, s.stop_lat, s.stop_lon⟩)))

/-- The `groupby('trip_id')` group of one trip, in row order. -/
def tripRows (st : List (String × TripStopRow)) (tid : String) : List TripStopRow :=
  (st.filter (fun p => p.1 == tid)).map (fun p => p.2)

/-- The geo fallback destination of one trip (`geo_dest`). -/
def geoDest (stop_times : List StopTimeRow) (stops : List Stop) (tid : String) :
    Option String :=
  geoFallback (tripRows (stWithNames stop_times stops) tid)

/-- The sibling headsign of a route (`route_headsign` /
`sibling_dest`): the most common non-blank headsign among the route's
trips, absent when no trip on the route has one. -/
def routeSiblingDest (trips : List Trip) (r : String) : Option String :=
  mostCommon?
    ((trips.filter (fun t => decide (t.route_id = r) && ! blankHeadsign t.trip_headsign)).filterMap
      (fun t => t.trip_headsign))

/-- The three-level fallback of `compute_trip_destinations` for one
trip: the mask algebra `blank` / `use_sibling` / `still_blank` of lines
147-154 evaluated row-wise. -/
def computeTripDestination (stop_times : List StopTimeRow) (stops : List Stop)
    (trips : List Trip) (t : Trip) : Option String :=
  if blankHeadsign t.trip_headsign then
    match routeSiblingDest trips t.route_id with
    | some d => some d
    | none => geoDest stop_times stops t.trip_id
  else t.trip_headsign

/-- `compute_trip_destinations`: the `trip_id → destination` table. -/
def compute_trip_destinations (stop_times : List StopTimeRow) (stops : List Stop)
    (trips : List Trip) : List (String × Option String) :=
  trips.map (fun t => (t.trip_id, computeTripDestination stop_times stops trips t))

/-- C3. The destination fallback is evaluated in order with the first
non-empty level winning: a trip whose declared headsign is non-empty
after trimming receives exactly that headsign, regardless of sibling
headsigns or geometry; a blank-headsign trip receives the sibling
headsign when one exists, and only otherwise the geometric fallback. -/
theorem destination_fallback_order (stop_times : List StopTimeRow) (stops : List Stop)
    (trips : List Trip) :
    (∀ (hs : String) (t : Trip), t.trip_headsign = some hs → strTrim hs ≠ "" →
      computeTripDestination stop_times stops trips t = some hs)
    ∧ (∀ t : Trip, blankHeadsign t.trip_headsign = true →
      ∀ d, routeSiblingDest trips t.route_id = some d →
        computeTripDestination stop_times stops trips t = some d)
    ∧ (∀ t : Trip, blankHeadsign t.trip_headsign = true →
      routeSiblingDest trips t.route_id = none →
        computeTripDestination stop_times stops trips t =
          geoDest stop_times stops t.trip_id) := by
  refine ⟨?_, ?_, ?_⟩
  · intro hs t hhs hne
    have hblank : blankHeadsign t.trip_headsign = false := by
      rw [hhs]
      simpa [blankHeadsign] using hne
    unfold computeTripDestination
    rw [hblank]
    simpa using hhs
  · intro t hblank d hsib
    unfold computeTripDestination
    rw [hblank, hsib]
    simp
  · intro t hblank hsib
    unfold computeTripDestination
    rw [hblank, hsib]
    simp

/-- Witness for C3: a trip with declared headsign keeps it even though
a sibling would resolve differently; a headsign-less trip takes the
sibling headsign. -/
theorem destination_fallback_order_witness :
    computeTripDestination [] []
        [⟨"T1", "R1", "S1", some "Bolzano"⟩, ⟨"T2", "R1", "S1", some "Selva"⟩,
         ⟨"T3", "R1", "S1", some "Selva"⟩]
        ⟨"T1", "R1", "S1", some "Bolzano"⟩ = some "Bolzano"
    ∧ computeTripDestination [] []
        [⟨"T1", "R1", "S1", some "Bolzano"⟩, ⟨"T2", "R1", "S1", some "Selva"⟩,
         ⟨"T3", "R1", "S1", some "Selva"⟩]
        ⟨"T4", "R1", "S1", none⟩ = some "Selva" :=
  ⟨(destination_fallback_order [] []
      [⟨"T1", "R1", "S1", some "Bolzano"⟩, ⟨"T2", "R1", "S1", some "Selva"⟩,
       ⟨"T3", "R1", "S1", some "Selva"⟩]).1 "Bolzano" ⟨"T1", "R1", "S1", some "Bolzano"⟩
      rfl (by decide),
    (destination_fallback_order [] []
      [⟨"T1", "R1", "S1", some "Bolzano"⟩, ⟨"T2", "R1", "S1", some "Selva"⟩,
       ⟨"T3", "R1", "S1", some "Selva"⟩]).2.1 ⟨"T4", "R1", "S1", none⟩ (by decide)
      "Selva" (by decide)⟩

/-! ### Station Consolidator (`consolidate_stops`, lines 248-269)

Stops are grouped by exact display name (`groupby('stop_name')`, keys
in sorted order); each group yields one station with mean coordinates,
first member's labels, summed per-stop departure counts and the list
of member identifiers.  The `is_main` marking column (a lookup against
the hardcoded main-stop list) carries no schedule data and is omitted
here. -/

structure Station where
  stop_name : String
  stop_lat : ℚ
  stop_lon : ℚ
  location : String
  region : String
  departures : Nat
  stop_ids : List String
deriving DecidableEq

/-- Departure count of one stop: the number of stop-time rows with its
identifier (`dep_counts`, with the `fillna(0)` default). -/
def depCount (stop_times : List StopTimeRow) (sid : String) : Nat :=
  (stop_times.filter (fun r => decide (r.stop_id = sid))).length

/-- Ascending string order for `groupby`'s sorted keys. -/
def strLe (a b : String) : Prop := ¬ strLt b a

instance : DecidableRel strLe := fun a b => by
  unfold strLe; infer_instance

/-- The group of stops sharing a display name, in input order. -/
def sameNameStops (stops : List Stop) (n : String) : List Stop :=
  stops.filter (fun s => decide (s.stop_name = n))

/-- The aggregation row of one name group: mean coordinates, first
member's labels, summed departure counts, member identifier list. -/
def mkStation (stop_times : List StopTimeRow) (n : String) (m : Stop) (ms : List Stop) :
    Station :=
  ⟨n,
    ((m :: ms).map (fun s => s.stop_lat)).sum / ((m :: ms).length : ℚ),
    ((m :: ms).map (fun s => s.stop_lon)).sum / ((m :: ms).length : ℚ),
    m.location, m.region,
    ((m :: ms).map (fun s => depCount stop_times s.stop_id)).sum,
    (m :: ms).map (fun s => s.stop_id)⟩

/-- The station of one group key, absent for a name no stop carries. -/
def buildStation (stop_times : List StopTimeRow) (stops : List Stop) (n : String) :
    Option Station :=
  match sameNameStops stops n with
  | [] => none
  | m :: ms => some (mkStation stop_times n m ms)

/-- `consolidate_stops`: one station per distinct stop name. -/
def consolidate_stops (stops : List Stop) (stop_times : List StopTimeRow) : List Station :=
  (List.insertionSort strLe ((stops.map (fun s => s.stop_name)).dedup)).filterMap
    (buildStation stop_times stops)

theorem mem_sameNameStops (stops : List Stop) (n : String) (s : Stop) :
    s ∈ sameNameStops stops n ↔ s ∈ stops ∧ s.stop_name = n := by
  unfold sameNameStops
  rw [List.mem_filter]
  simp

theorem buildStation_name (stop_times : List StopTimeRow) (stops : List Stop)
    (n : String) (st : Station) (h : buildStation stop_times stops n = some st) :
    st.stop_name = n := by
  unfold buildStation at h
  cases hm : sameNameStops stops n with
  | nil => rw [hm] at h; exact absurd h (by simp)
  | cons m ms =>
    rw [hm] at h
    injection h with h
    rw [← h]
    rfl

theorem mem_consolidate_iff (stops : List Stop) (stop_times : List StopTimeRow)
    (st : Station) :
    st ∈ consolidate_stops stops stop_times ↔
      ∃ n, (∃ s ∈ stops, s.stop_name = n) ∧ buildStation stop_times stops n = some st := by
  unfold consolidate_stops
  rw [List.mem_filterMap]
  constructor
  · rintro ⟨n, hn, hb⟩
    have hn' : n ∈ (stops.map (fun s => s.stop_name)).dedup :=
      (List.perm_insertionSort strLe _).subset hn
    rw [List.mem_dedup, List.mem_map] at hn'
    obtain ⟨s, hs, hsn⟩ := hn'
    exact ⟨n, ⟨s, hs, hsn⟩, hb⟩
  · rintro ⟨n, ⟨s, hs, hsn⟩, hb⟩
    refine ⟨n, ?_, hb⟩
    have : n ∈ (stops.map (fun s => s.stop_name)).dedup := by
      rw [List.mem_dedup, List.mem_map]
      exact ⟨s, hs, hsn⟩
    exact (List.perm_insertionSort strLe _).symm.subset this

theorem length_filter_or {γ : Type} (p q : γ → Bool)
    (hdisj : ∀ x, ¬ (p x = true ∧ q x = true)) :
    ∀ l : List γ, (l.filter (fun x => p x || q x)).length =
      (l.filter p).length + (l.filter q).length := by
  intro l
  induction l with
  | nil => rfl
  | cons x l ih =>
    by_cases hp : p x = true
    · have hq : ¬ q x = true := fun hq => hdisj x ⟨hp, hq⟩
      simp only [List.filter_cons, hp, Bool.true_or]
      simp only [Bool.not_eq_true] at hq
      simp [hq, ih]
      omega
    · simp only [Bool.not_eq_true] at hp
      by_cases hq : q x = true
      · simp [List.filter_cons, hp, hq, ih]
        omega
      · simp only [Bool.not_eq_true] at hq
        simp [List.filter_cons, hp, hq, ih]

theorem sum_depCount (stop_times : List StopTimeRow) :
    ∀ ids : List String, ids.Nodup →
      (ids.map (fun i => depCount stop_times i)).sum =
        (stop_times.filter (fun r => decide (r.stop_id ∈ ids))).length := by
  intro ids
  induction ids with
  | nil =>
    intro _
    simp
  | cons i ids ih =>
    intro hnd
    obtain ⟨hi, hnd'⟩ := List.nodup_cons.mp hnd
    have hcong : ∀ r ∈ stop_times, decide (r.stop_id ∈ i :: ids) =
        ((fun r : StopTimeRow => decide (r.stop_id = i)) r ||
          (fun r : StopTimeRow => decide (r.stop_id ∈ ids)) r) := by
      intro r _
      simp [List.mem_cons]
    rw [List.map_cons, List.sum_cons, List.filter_congr hcong,
      length_filter_or (fun r : StopTimeRow => decide (r.stop_id = i))
        (fun r : StopTimeRow => decide (r.stop_id ∈ ids)) ?_ stop_times, ih hnd']
    · rfl
    · intro r ⟨h1, h2⟩
      rw [decide_eq_true_eq] at h1 h2
      exact hi (h1 ▸ h2)

/-- Two stops named Ortisei, Sarteur with distinct identifiers. -/
def exSarteurStops : List Stop :=
  [⟨"1", "Ortisei, Sarteur", 46, 11, "St. Ulrich", "Val Gardena"⟩,
   ⟨"2", "Ortisei, Sarteur", 47, 12, "St. Ulrich", "Val Gardena"⟩]

/-- Three stop-time rows at stop 1 and two at stop 2. -/
def exSarteurST : List StopTimeRow :=
  [⟨"T1", "1", ⟨8, 0, 0⟩, ⟨8, 0, 0⟩, 1⟩, ⟨"T2", "1", ⟨9, 0, 0⟩, ⟨9, 0, 0⟩, 1⟩,
   ⟨"T3", "1", ⟨10, 0, 0⟩, ⟨10, 0, 0⟩, 1⟩, ⟨"T4", "2", ⟨8, 30, 0⟩, ⟨8, 30, 0⟩, 1⟩,
   ⟨"T5", "2", ⟨9, 30, 0⟩, ⟨9, 30, 0⟩, 1⟩]

/-- C7. Station consolidation partitions stops by exact display name:
each stop belongs to exactly one station (by name), a station's member
identifiers are exactly those of the stops sharing its name, its
departure count equals both the number of stop-time rows at a member
and the sum of the members' per-stop counts, its centroid is the
arithmetic mean of the member coordinates; and the two Ortisei,
Sarteur stops consolidate into one station with member set of size 2
and departure count 3 + 2 = 5. -/
theorem consolidate_spec (stops : List Stop) (stop_times : List StopTimeRow)
    (hids : (stops.map (fun s => s.stop_id)).Nodup) :
    (∀ s ∈ stops, ∃! st, st ∈ consolidate_stops stops stop_times ∧
      st.stop_name = s.stop_name)
    ∧ (∀ st ∈ consolidate_stops stops stop_times, ∀ i,
      i ∈ st.stop_ids ↔ ∃ s ∈ stops, s.stop_id = i ∧ s.stop_name = st.stop_name)
    ∧ (∀ st ∈ consolidate_stops stops stop_times,
      st.departures =
          (stop_times.filter (fun r => decide (r.stop_id ∈ st.stop_ids))).length ∧
      st.departures = ((sameNameStops stops st.stop_name).map
          (fun s => depCount stop_times s.stop_id)).sum)
    ∧ (∀ st ∈ consolidate_stops stops stop_times,
      st.stop_lat = ((sameNameStops stops st.stop_name).map (fun s => s.stop_lat)).sum /
        ((sameNameStops stops st.stop_name).length : ℚ) ∧
      st.stop_lon = ((sameNameStops stops st.stop_name).map (fun s => s.stop_lon)).sum /
        ((sameNameStops stops st.stop_name).length : ℚ))
    ∧ (consolidate_stops exSarteurStops exSarteurST).map
        (fun st => (st.stop_name, st.stop_ids, st.departures)) =
      [("Ortisei, Sarteur", ["1", "2"], 5)] := by
  have hfields : ∀ st ∈ consolidate_stops stops stop_times,
      ∃ m ms, sameNameStops stops st.stop_name = m :: ms ∧
        st = mkStation stop_times st.stop_name m ms := by
    intro st hst
    obtain ⟨n, _, hb⟩ := (mem_consolidate_iff stops stop_times st).mp hst
    have hname := buildStation_name stop_times stops n st hb
    unfold buildStation at hb
    cases hm : sameNameStops stops n with
    | nil => rw [hm] at hb; exact absurd hb (by simp)
    | cons m ms =>
      rw [hm] at hb
      injection hb with hb
      subst hname
      exact ⟨m, ms, hm, hb.symm⟩
  refine ⟨?_, ?_, ?_, ?_, by decide⟩
  · -- each stop belongs to exactly one station, keyed by its name
    intro s hs
    have hmem : s ∈ sameNameStops stops s.stop_name :=
      (mem_sameNameStops stops s.stop_name s).mpr ⟨hs, rfl⟩
    obtain ⟨m, ms, hm⟩ : ∃ m ms, sameNameStops stops s.stop_name = m :: ms := by
      cases hm : sameNameStops stops s.stop_name with
      | nil => rw [hm] at hmem; exact absurd hmem (List.not_mem_nil s)
      | cons m ms => exact ⟨m, ms, rfl⟩
    have hb : buildStation stop_times stops s.stop_name =
        some (mkStation stop_times s.stop_name m ms) := by
      unfold buildStation
      rw [hm]
    refine ⟨mkStation stop_times s.stop_name m ms,
      ⟨(mem_consolidate_iff stops stop_times _).mpr ⟨s.stop_name, ⟨s, hs, rfl⟩, hb⟩, rfl⟩,
      ?_⟩
    rintro st' ⟨hst', hname'⟩
    obtain ⟨n', _, hb'⟩ := (mem_consolidate_iff stops stop_times st').mp hst'
    have hn' : n' = s.stop_name := (buildStation_name stop_times stops n' st' hb').symm.trans
      hname'
    rw [hn', hb] at hb'
    injection hb' with hb'
    exact hb'.symm
  · -- member identifiers are those of the stops sharing the name
    intro st hst i
    obtain ⟨m, ms, hm, hmk⟩ := hfields st hst
    have hids' : st.stop_ids = (m :: ms).map (fun s => s.stop_id) := by rw [hmk]; rfl
    rw [hids', List.mem_map]
    constructor
    · rintro ⟨s, hsmem, hsid⟩
      rw [← hm] at hsmem
      obtain ⟨hsl, hsn⟩ := (mem_sameNameStops stops st.stop_name s).mp hsmem
      exact ⟨s, hsl, hsid, hsn⟩
    · rintro ⟨s, hsl, hsid, hsn⟩
      refine ⟨s, ?_, hsid⟩
      rw [← hm]
      exact (mem_sameNameStops stops st.stop_name s).mpr ⟨hsl, hsn⟩
  · -- the two departure count characterizations
    intro st hst
    obtain ⟨m, ms, hm, hmk⟩ := hfields st hst
    have hdep : st.departures = ((m :: ms).map (fun s => depCount stop_times s.stop_id)).sum := by
      rw [hmk]; rfl
    have hids' : st.stop_ids = (m :: ms).map (fun s => s.stop_id) := by rw [hmk]; rfl
    have hsub : List.Sublist ((m :: ms).map (fun s => s.stop_id))
        (stops.map (fun s => s.stop_id)) := by
      have : List.Sublist (m :: ms) stops := hm ▸ List.filter_sublist stops
      exact this.map (fun s => s.stop_id)
    have hnd : ((m :: ms).map (fun s => s.stop_id)).Nodup := hids.sublist hsub
    have hsum := sum_depCount stop_times ((m :: ms).map (fun s => s.stop_id)) hnd
    rw [List.map_map] at hsum
    constructor
    · rw [hdep, hids']
      exact hsum
    · rw [hdep, hm]
  · -- the centroid is the arithmetic mean of the members
    intro st hst
    obtain ⟨m, ms, hm, hmk⟩ := hfields st hst
    constructor
    · rw [hm]
      rw [hmk]
      rfl
    · rw [hm]
      rw [hmk]
      rfl

/-- Witness for C7: the Ortisei, Sarteur pair consolidates to one
station with two members and five departures. -/
theorem consolidate_spec_witness :
    (consolidate_stops exSarteurStops exSarteurST).map
        (fun st => (st.stop_name, st.stop_ids, st.departures)) =
      [("Ortisei, Sarteur", ["1", "2"], 5)] :=
  (consolidate_spec exSarteurStops exSarteurST (by decide)).2.2.2.2

/-! ### Direct connections (destination-filtered branch of `main`,
val_gardena_app.py lines 1488-1531)

Origin and destination stop-time projections, the `trip_id` merge, the
`stop_sequence_dest > stop_sequence_orig` filter, the
`(trip_id, stop_sequence_orig, stop_sequence_dest)` sort with
`drop_duplicates('trip_id', keep='first')`, the departure-time filter,
the route join, the departure-time sort and the 2-minute walk.  The
`destination` column joined for display is not read by the walk and is
omitted. -/

structure Route where
  route_id : String
  route_short_name : String
deriving DecidableEq

structure OriginVisit where
  trip_id : String
  stop_id : String
  stop_sequence : Nat
  departure_time : Hms
deriving DecidableEq

structure DestVisit where
  trip_id : String
  stop_sequence : Nat
  arrival_time : Hms
deriving DecidableEq

/-- One row of the final connection table. -/
structure Conn where
  trip_id : String
  departure_time : Hms
  arrival_time : Hms
  route_short_name : String
deriving DecidableEq

def origin_st (ast : List StopTimeRow) (origin_ids : List String) : List OriginVisit :=
  (ast.filter (fun r => decide (r.stop_id ∈ origin_ids))).map
    (fun r => ⟨r.trip_id, r.stop_id, r.stop_sequence, r.departure_time⟩)

def dest_st (ast : List StopTimeRow) (dest_ids : List String) : List DestVisit :=
  (ast.filter (fun r => decide (r.stop_id ∈ dest_ids))).map
    (fun r => ⟨r.trip_id, r.stop_sequence, r.arrival_time⟩)

/-- `origin_st.merge(dest_st, on='trip_id')`: every origin row paired
with every destination row of the same trip, left-major order. -/
def mergedPairs (os : List OriginVisit) (ds : List DestVisit) :
    List (OriginVisit × DestVisit) :=
  os.flatMap (fun o =>
    (ds.filter (fun d => decide (d.trip_id = o.trip_id))).map (fun d => (o, d)))

/-- `merged[merged['stop_sequence_dest'] > merged['stop_sequence_orig']]`. -/
def validPairs (os : List OriginVisit) (ds : List DestVisit) :
    List (OriginVisit × DestVisit) :=
  (mergedPairs os ds).filter (fun p => decide (p.1.stop_sequence < p.2.stop_sequence))

/-- The `['trip_id', 'stop_sequence_orig', 'stop_sequence_dest']` sort
key. -/
def pairLe (a b : OriginVisit × DestVisit) : Prop :=
  strLt a.1.trip_id b.1.trip_id ∨ (a.1.trip_id = b.1.trip_id ∧
    (a.1.stop_sequence < b.1.stop_sequence ∨ (a.1.stop_sequence = b.1.stop_sequence ∧
      a.2.stop_sequence ≤ b.2.stop_sequence)))

instance : DecidableRel pairLe := fun a b => by
  unfold pairLe; infer_instance

theorem pairLe_refl (a : OriginVisit × DestVisit) : pairLe a a :=
  Or.inr ⟨rfl, Or.inr ⟨rfl, le_refl _⟩⟩

theorem pairLe_total (a b : OriginVisit × DestVisit) : pairLe a b ∨ pairLe b a := by
  unfold pairLe
  by_cases hab : strLt a.1.trip_id b.1.trip_id
  · exact Or.inl (Or.inl hab)
  · by_cases hba : strLt b.1.trip_id a.1.trip_id
    · exact Or.inr (Or.inl hba)
    · have heq := strLt_connex hab hba
      rcases Nat.lt_trichotomy a.1.stop_sequence b.1.stop_sequence with h | h | h
      · exact Or.inl (Or.inr ⟨heq, Or.inl h⟩)
      · rcases Nat.le_total a.2.stop_sequence b.2.stop_sequence with h2 | h2
        · exact Or.inl (Or.inr ⟨heq, Or.inr ⟨h, h2⟩⟩)
        · exact Or.inr (Or.inr ⟨heq.symm, Or.inr ⟨h.symm, h2⟩⟩)
      · exact Or.inr (Or.inr ⟨heq.symm, Or.inl h⟩)

theorem pairLe_trans (a b c : OriginVisit × DestVisit)
    (h1 : pairLe a b) (h2 : pairLe b c) : pairLe a c := by
  unfold pairLe at h1 h2 ⊢
  rcases h1 with h1 | ⟨h1e, h1s⟩
  · rcases h2 with h2 | ⟨h2e, _⟩
    · exact Or.inl (strLt_trans h1 h2)
    · exact Or.inl (h2e ▸ h1)
  · rcases h2 with h2 | ⟨h2e, h2s⟩
    · exact Or.inl (h1e ▸ h2)
    · refine Or.inr ⟨h1e.trans h2e, ?_⟩
      omega

/-- `sort_values` then `drop_duplicates('trip_id', keep='first')`:
keep the first row of each trip. -/
def dropDupTrip : List (OriginVisit × DestVisit) → List String →
    List (OriginVisit × DestVisit)
  | [], _ => []
  | p :: rest, seen =>
    if decide (p.1.trip_id ∈ seen) then dropDupTrip rest seen
    else p :: dropDupTrip rest (p.1.trip_id :: seen)

def sortedValid (os : List OriginVisit) (ds : List DestVisit) :
    List (OriginVisit × DestVisit) :=
  List.insertionSort pairLe (validPairs os ds)

/-- The chosen boarding/alighting pair per trip (`per_trip`). -/
def perTrip (os : List OriginVisit) (ds : List DestVisit) :
    List (OriginVisit × DestVisit) :=
  dropDupTrip (sortedValid os ds) []

/-- `per_trip.merge(vg_trips).merge(vg_routes)`: look up the route
short name of a trip (inner joins on the first matching rows). -/
def lookupRouteName (trips : List Trip) (routes : List Route) (tid : String) :
    Option String :=
  (trips.find? (fun t => t.trip_id == tid)).bind (fun t =>
    (routes.find? (fun r => r.route_id == t.route_id)).map (fun r => r.route_short_name))

def connTimeLe (a b : Conn) : Prop := Hms.le a.departure_time b.departure_time

instance : DecidableRel connTimeLe := fun a b => by
  unfold connTimeLe; infer_instance

def connRoute (c : Conn) : String := c.route_short_name

def connMins (c : Conn) : Int := (timeToMinutes c.departure_time : Int)

/-- The full destination-filtered schedule pipeline (lines 1488-1531):
choose each trip's first qualifying pair, filter by the departure-time
threshold, join route names, sort by departure time and run the
2-minute keep-loop over that time-sorted order. -/
def direct_connections (ast : List StopTimeRow) (trips : List Trip) (routes : List Route)
    (origin_ids dest_ids : List String) (time_str : Hms) : List Conn :=
  walkKeep connRoute connMins none
    (List.insertionSort connTimeLe
      (((perTrip (origin_st ast origin_ids) (dest_st ast dest_ids)).filter
          (fun p => decide (Hms.le time_str p.1.departure_time))).filterMap
        (fun p => (lookupRouteName trips routes p.1.trip_id).map
          (fun rn => ⟨p.1.trip_id, p.1.departure_time, p.2.arrival_time, rn⟩))))

theorem mem_validPairs (os : List OriginVisit) (ds : List DestVisit)
    (p : OriginVisit × DestVisit) :
    p ∈ validPairs os ds ↔ p.1 ∈ os ∧ p.2 ∈ ds ∧ p.2.trip_id = p.1.trip_id ∧
      p.1.stop_sequence < p.2.stop_sequence := by
  unfold validPairs mergedPairs
  rw [List.mem_filter, List.mem_flatMap]
  constructor
  · rintro ⟨⟨o, ho, hp⟩, hseq⟩
    rw [List.mem_map] at hp
    obtain ⟨d, hd, hpd⟩ := hp
    rw [List.mem_filter] at hd
    obtain ⟨hd1, hd2⟩ := hd
    rw [← hpd]
    refine ⟨ho, hd1, ?_, by simpa [← hpd] using hseq⟩
    simpa using hd2
  · rintro ⟨h1, h2, h3, h4⟩
    refine ⟨⟨p.1, h1, ?_⟩, by simpa using h4⟩
    rw [List.mem_map]
    refine ⟨p.2, ?_, rfl⟩
    rw [List.mem_filter]
    exact ⟨h2, by simpa using h3⟩

theorem dropDupTrip_mem : ∀ (l : List (OriginVisit × DestVisit)) (seen : List String)
    (p : OriginVisit × DestVisit), p ∈ dropDupTrip l seen →
      p ∈ l ∧ p.1.trip_id ∉ seen := by
  intro l
  induction l with
  | nil => intro seen p hp; exact absurd hp (List.not_mem_nil p)
  | cons x rest ih =>
    intro seen p hp
    unfold dropDupTrip at hp
    by_cases hx : x.1.trip_id ∈ seen
    · rw [if_pos (by simpa using hx)] at hp
      obtain ⟨h1, h2⟩ := ih seen p hp
      exact ⟨List.mem_cons_of_mem x h1, h2⟩
    · rw [if_neg (by simpa using hx)] at hp
      rcases List.mem_cons.mp hp with rfl | hp'
      · exact ⟨List.mem_cons_self _ _, hx⟩
      · obtain ⟨h1, h2⟩ := ih _ p hp'
        have h2' : p.1.trip_id ∉ seen := fun hc => h2 (List.mem_cons_of_mem _ hc)
        exact ⟨List.mem_cons_of_mem x h1, h2'⟩

theorem dropDupTrip_covers : ∀ (l : List (OriginVisit × DestVisit)) (seen : List String)
    (t : String), (∃ p ∈ l, p.1.trip_id = t) → t ∉ seen →
      ∃ p ∈ dropDupTrip l seen, p.1.trip_id = t := by
  intro l
  induction l with
  | nil =>
    rintro seen t ⟨p, hp, _⟩ _
    exact absurd hp (List.not_mem_nil p)
  | cons x rest ih =>
    rintro seen t ⟨p, hp, hpt⟩ hts
    unfold dropDupTrip
    by_cases hx : x.1.trip_id ∈ seen
    · rw [if_pos (by simpa using hx)]
      rcases List.mem_cons.mp hp with rfl | hp'
      · exact absurd (hpt ▸ hx) hts
      · exact ih seen t ⟨p, hp', hpt⟩ hts
    · rw [if_neg (by simpa using hx)]
      by_cases hxt : x.1.trip_id = t
      · exact ⟨x, List.mem_cons_self _ _, hxt⟩
      · have hp' : p ∈ rest := by
          rcases List.mem_cons.mp hp with rfl | hp'
          · exact absurd hpt hxt
          · exact hp'
        have hts' : t ∉ x.1.trip_id :: seen := by
          intro hc
          rcases List.mem_cons.mp hc with rfl | hc'
          · exact hxt rfl
          · exact hts hc'
        obtain ⟨q, hq, hqt⟩ := ih (x.1.trip_id :: seen) t ⟨p, hp', hpt⟩ hts'
        exact ⟨q, List.mem_cons_of_mem x hq, hqt⟩

theorem dropDupTrip_minimal : ∀ (l : List (OriginVisit × DestVisit)) (seen : List String),
    l.Pairwise pairLe → ∀ p ∈ dropDupTrip l seen, ∀ q ∈ l,
      q.1.trip_id = p.1.trip_id → pairLe p q := by
  intro l
  induction l with
  | nil => intro seen _ p hp; exact absurd hp (List.not_mem_nil p)
  | cons x rest ih =>
    intro seen hpw p hp q hq hqt
    have hpw' := hpw.of_cons
    have hhead : ∀ y ∈ rest, pairLe x y := fun y hy => List.rel_of_pairwise_cons hpw hy
    unfold dropDupTrip at hp
    by_cases hx : x.1.trip_id ∈ seen
    · rw [if_pos (by simpa using hx)] at hp
      have hnot := (dropDupTrip_mem rest seen p hp).2
      rcases List.mem_cons.mp hq with rfl | hq'
      · exact absurd (hqt ▸ hx) hnot
      · exact ih seen hpw' p hp q hq' hqt
    · rw [if_neg (by simpa using hx)] at hp
      rcases List.mem_cons.mp hp with hpeq | hp'
      · rcases List.mem_cons.mp hq with hqeq | hq'
        · rw [hpeq, hqeq]; exact pairLe_refl x
        · rw [hpeq]; exact hhead q hq'
      · have hnot := (dropDupTrip_mem rest (x.1.trip_id :: seen) p hp').2
        have hpne : p.1.trip_id ≠ x.1.trip_id := fun hc =>
          hnot (hc ▸ List.mem_cons_self _ _)
        rcases List.mem_cons.mp hq with hqeq | hq'
        · rw [hqeq] at hqt
          exact absurd hqt (fun hc => hpne hc.symm)
        · exact ih _ hpw' p hp' q hq' hqt

/-- Stop-time rows of three trips from origin stop O to destination
stop D; trips T1 and T3 share route A and leave one minute apart, with
route B's T2 in between. -/
def exC8ast : List StopTimeRow :=
  [⟨"T1", "O", ⟨8, 0, 0⟩, ⟨8, 0, 0⟩, 1⟩, ⟨"T1", "D", ⟨8, 30, 0⟩, ⟨8, 30, 0⟩, 2⟩,
   ⟨"T2", "O", ⟨8, 0, 30⟩, ⟨8, 0, 30⟩, 1⟩, ⟨"T2", "D", ⟨8, 40, 0⟩, ⟨8, 40, 0⟩, 2⟩,
   ⟨"T3", "O", ⟨8, 1, 0⟩, ⟨8, 1, 0⟩, 1⟩, ⟨"T3", "D", ⟨8, 50, 0⟩, ⟨8, 50, 0⟩, 2⟩]

def exC8trips : List Trip :=
  [⟨"T1", "RA", "S", none⟩, ⟨"T2", "RB", "S", none⟩, ⟨"T3", "RA", "S", none⟩]

def exC8routes : List Route := [⟨"RA", "A"⟩, ⟨"RB", "B"⟩]

/-- C8 counterexample: the connection walk runs over the time-sorted
list comparing each row to the immediately preceding kept row of any
route, so with route B's row kept between them, route A's rows at 8:00
and 8:01 — one minute apart — both survive; dedup keyed by route, as
the claim states it, would have dropped the 8:01 row. -/
theorem direct_connections_counterexample :
    direct_connections exC8ast exC8trips exC8routes ["O"] ["D"] ⟨0, 0, 0⟩ =
      [⟨"T1", ⟨8, 0, 0⟩, ⟨8, 30, 0⟩, "A"⟩, ⟨"T2", ⟨8, 0, 30⟩, ⟨8, 40, 0⟩, "B"⟩,
       ⟨"T3", ⟨8, 1, 0⟩, ⟨8, 50, 0⟩, "A"⟩]
    ∧ connRoute ⟨"T3", ⟨8, 1, 0⟩, ⟨8, 50, 0⟩, "A"⟩ =
        connRoute ⟨"T1", ⟨8, 0, 0⟩, ⟨8, 30, 0⟩, "A"⟩
    ∧ connMins ⟨"T3", ⟨8, 1, 0⟩, ⟨8, 50, 0⟩, "A"⟩ -
        connMins ⟨"T1", ⟨8, 0, 0⟩, ⟨8, 30, 0⟩, "A"⟩ < 2 :=
  ⟨by decide, by decide, by decide⟩

/-- C8 amended. A trip is selected iff it visits an origin-station
stop strictly before a destination-station stop; its boarding pair is
the first qualifying origin visit and, for that origin, the first
qualifying destination visit; the output is ordered by departure time,
with the 2-minute rule applied against the immediately preceding kept
row of the time-sorted list (not per route). -/
theorem direct_connections_spec (ast : List StopTimeRow) (trips : List Trip)
    (routes : List Route) (origin_ids dest_ids : List String) (time_str : Hms) :
    (∀ t : String,
      (∃ p ∈ perTrip (origin_st ast origin_ids) (dest_st ast dest_ids),
        p.1.trip_id = t) ↔
      (∃ o ∈ origin_st ast origin_ids, ∃ d ∈ dest_st ast dest_ids,
        o.trip_id = t ∧ d.trip_id = t ∧ o.stop_sequence < d.stop_sequence))
    ∧ (∀ p ∈ perTrip (origin_st ast origin_ids) (dest_st ast dest_ids),
      (p.1 ∈ origin_st ast origin_ids ∧ p.2 ∈ dest_st ast dest_ids ∧
        p.2.trip_id = p.1.trip_id ∧ p.1.stop_sequence < p.2.stop_sequence) ∧
      ∀ q ∈ validPairs (origin_st ast origin_ids) (dest_st ast dest_ids),
        q.1.trip_id = p.1.trip_id →
          p.1.stop_sequence < q.1.stop_sequence ∨
            (p.1.stop_sequence = q.1.stop_sequence ∧
              p.2.stop_sequence ≤ q.2.stop_sequence))
    ∧ (direct_connections ast trips routes origin_ids dest_ids time_str).Pairwise
        connTimeLe := by
  haveI : IsTotal (OriginVisit × DestVisit) pairLe := ⟨pairLe_total⟩
  haveI : IsTrans (OriginVisit × DestVisit) pairLe := ⟨pairLe_trans⟩
  haveI : IsTotal Conn connTimeLe := ⟨fun a b => Hms.le_total _ _⟩
  haveI : IsTrans Conn connTimeLe := ⟨fun a b c => Hms.le_trans⟩
  have hsortedpw : (sortedValid (origin_st ast origin_ids)
      (dest_st ast dest_ids)).Pairwise pairLe :=
    List.sorted_insertionSort pairLe _
  have hperm : (sortedValid (origin_st ast origin_ids) (dest_st ast dest_ids)).Perm
      (validPairs (origin_st ast origin_ids) (dest_st ast dest_ids)) :=
    List.perm_insertionSort pairLe _
  refine ⟨?_, ?_, ?_⟩
  · intro t
    constructor
    · rintro ⟨p, hp, hpt⟩
      have hps := (dropDupTrip_mem _ [] p hp).1
      have hpv := hperm.subset hps
      obtain ⟨h1, h2, h3, h4⟩ := (mem_validPairs _ _ p).mp hpv
      exact ⟨p.1, h1, p.2, h2, hpt, h3.trans hpt, h4⟩
    · rintro ⟨o, ho, d, hd, hot, hdt, hseq⟩
      have hpv : (o, d) ∈ validPairs (origin_st ast origin_ids) (dest_st ast dest_ids) :=
        (mem_validPairs _ _ (o, d)).mpr ⟨ho, hd, hdt.trans hot.symm, hseq⟩
      have hps := hperm.symm.subset hpv
      exact dropDupTrip_covers _ [] t ⟨(o, d), hps, hot⟩ (List.not_mem_nil t)
  · intro p hp
    have hps := (dropDupTrip_mem _ [] p hp).1
    have hpv := hperm.subset hps
    obtain ⟨h1, h2, h3, h4⟩ := (mem_validPairs _ _ p).mp hpv
    refine ⟨⟨h1, h2, h3, h4⟩, ?_⟩
    intro q hq hqt
    have hqs := hperm.symm.subset hq
    have hle := dropDupTrip_minimal _ [] hsortedpw p hp q hqs hqt
    rcases hle with hle | ⟨_, hle⟩
    · exact absurd hle (hqt ▸ strLt_irrefl _)
    · exact hle
  · unfold direct_connections
    have hsorted : (List.insertionSort connTimeLe
        (((perTrip (origin_st ast origin_ids) (dest_st ast dest_ids)).filter
            (fun p => decide (Hms.le time_str p.1.departure_time))).filterMap
          (fun p => (lookupRouteName trips routes p.1.trip_id).map
            (fun rn => ⟨p.1.trip_id, p.1.departure_time, p.2.arrival_time, rn⟩)))).Pairwise
        connTimeLe :=
      List.sorted_insertionSort connTimeLe _
    exact hsorted.sublist (walkKeep_sublist connRoute connMins none _)

/-- Witness for the amended C8: trip selection for T1, minimality of
its chosen pair, and sortedness of the concrete output. -/
theorem direct_connections_spec_witness :
    ((∃ p ∈ perTrip (origin_st exC8ast ["O"]) (dest_st exC8ast ["D"]),
        p.1.trip_id = "T1") ↔
      (∃ o ∈ origin_st exC8ast ["O"], ∃ d ∈ dest_st exC8ast ["D"],
        o.trip_id = "T1" ∧ d.trip_id = "T1" ∧ o.stop_sequence < d.stop_sequence))
    ∧ (∀ q ∈ validPairs (origin_st exC8ast ["O"]) (dest_st exC8ast ["D"]),
        q.1.trip_id = ((⟨"T1", "O", 1, ⟨8, 0, 0⟩⟩, ⟨"T1", 2, ⟨8, 30, 0⟩⟩) :
          OriginVisit × DestVisit).1.trip_id →
          ((⟨"T1", "O", 1, ⟨8, 0, 0⟩⟩, ⟨"T1", 2, ⟨8, 30, 0⟩⟩) :
            OriginVisit × DestVisit).1.stop_sequence < q.1.stop_sequence ∨
            (((⟨"T1", "O", 1, ⟨8, 0, 0⟩⟩, ⟨"T1", 2, ⟨8, 30, 0⟩⟩) :
              OriginVisit × DestVisit).1.stop_sequence = q.1.stop_sequence ∧
              ((⟨"T1", "O", 1, ⟨8, 0, 0⟩⟩, ⟨"T1", 2, ⟨8, 30, 0⟩⟩) :
                OriginVisit × DestVisit).2.stop_sequence ≤ q.2.stop_sequence))
    ∧ (direct_connections exC8ast exC8trips exC8routes ["O"] ["D"] ⟨0, 0, 0⟩).Pairwise
        connTimeLe :=
  ⟨(direct_connections_spec exC8ast exC8trips exC8routes ["O"] ["D"] ⟨0, 0, 0⟩).1 "T1",
   ((direct_connections_spec exC8ast exC8trips exC8routes ["O"] ["D"] ⟨0, 0, 0⟩).2.1
     (⟨"T1", "O", 1, ⟨8, 0, 0⟩⟩, ⟨"T1", 2, ⟨8, 30, 0⟩⟩) (by decide)).2,
   (direct_connections_spec exC8ast exC8trips exC8routes ["O"] ["D"] ⟨0, 0, 0⟩).2.2⟩

/-! ### Query script (`query_transport_schedules.py`)

`get_route_stops` (lines 48-68) and `find_connections` (lines 93-135)
over the same tables.  `str.contains(..., case=False)` is embedded as
a case-insensitive substring test on the character lists; a Python
`None` return is `none`; the final
`pd.DataFrame(connections).sort_values('departure')` is embedded with
the pandas behavior that a frame built from an empty record list has
no columns, so selecting the `departure` sort key raises `KeyError`. -/

structure RouteRow where
  route_id : String
  route_short_name : String
  route_long_name : String
  route_type : String
deriving DecidableEq

/-- One record of the `connections` list of `find_connections`. -/
structure ConnRow where
  route : String
  route_name : String
  departure : Hms
  arrival : Hms
  trip_id : String
deriving DecidableEq

/-- Case-insensitive matching of a needle at the head of a haystack. -/
def startsWithChars : List Char → List Char → Bool
  | _, [] => true
  | [], _ :: _ => false
  | a :: as, b :: bs => (a.toLower.toNat == b.toLower.toNat) && startsWithChars as bs

/-- Case-insensitive substring test on character lists. -/
def containsChars : List Char → List Char → Bool
  | [], needle => needle.isEmpty
  | a :: as, needle => startsWithChars (a :: as) needle || containsChars as needle

/-- `Series.str.contains(needle, case=False, na=False)` on one cell. -/
def strContainsCI (hay needle : String) : Bool := containsChars hay.data needle.data

def connDepLe (a b : ConnRow) : Prop := Hms.le a.departure b.departure

instance : DecidableRel connDepLe := fun a b => by
  unfold connDepLe; infer_instance

/-- `pd.DataFrame(connections).sort_values('departure')`: a frame from
an empty record list has no `departure` column and the sort raises
`KeyError`; otherwise the rows are sorted by departure. -/
def dataFrameSortByDeparture (conns : List ConnRow) : Except String (List ConnRow) :=
  match conns with
  | [] => Except.error "KeyError: departure"
  | _ :: _ => Except.ok (List.insertionSort connDepLe conns)

/-- `get_route_stops`: `(None, None)` for an unknown route short name,
otherwise the route row and the stops its trips visit. -/
def get_route_stops (routes : List RouteRow) (trips : List Trip)
    (stop_times : List StopTimeRow) (stops : List Stop) (route_short_name : String) :
    Option (RouteRow × List Stop) :=
  match routes.filter (fun r => decide (r.route_short_name = route_short_name)) with
  | [] => none
  | r :: _ =>
    some (r, stops.filter (fun s => decide (s.stop_id ∈
      ((stop_times.filter (fun x => decide (x.trip_id ∈
        (trips.filter (fun t => decide (t.route_id = r.route_id))).map
          (fun t => t.trip_id)))).map (fun x => x.stop_id)))))

/-- `find_connections`: `None` when either location matches no stop;
otherwise one record per common trip (first matching origin and
destination rows, joined trip and route rows; a missing foreign key
would raise `IndexError` in the source and is modelled as a dropped
record — no claim exercises it), handed to
`pd.DataFrame(...).sort_values('departure')`.  The Python `set`
intersection is iterated in first-appearance order of the origin
rows. -/
def find_connections (stops : List Stop) (routes : List RouteRow) (trips : List Trip)
    (stop_times : List StopTimeRow) (from_location to_location : String)
    (after_time : Hms) : Option (Except String (List ConnRow)) :=
  let from_stops := stops.filter (fun s => strContainsCI s.location from_location)
  let to_stops := stops.filter (fun s => strContainsCI s.location to_location)
  if from_stops.isEmpty || to_stops.isEmpty then none
  else
    let from_st := stop_times.filter (fun r =>
      decide (r.stop_id ∈ from_stops.map (fun s => s.stop_id)) &&
        decide (Hms.le after_time r.departure_time))
    let to_st := stop_times.filter (fun r =>
      decide (r.stop_id ∈ to_stops.map (fun s => s.stop_id)))
    let common := ((from_st.map (fun r => r.trip_id)).dedup).filter
      (fun t => decide (t ∈ to_st.map (fun r => r.trip_id)))
    let conns := common.filterMap (fun tid =>
      match from_st.find? (fun r => r.trip_id == tid),
          to_st.find? (fun r => r.trip_id == tid),
          trips.find? (fun t => t.trip_id == tid) with
      | some dep, some arr, some tr =>
        (routes.find? (fun ri => ri.route_id == tr.route_id)).map (fun ri =>
          ⟨ri.route_short_name, ri.route_long_name, dep.departure_time,
            arr.arrival_time, tid⟩)
      | _, _, _ => none)
    some (dataFrameSortByDeparture conns)

/-- Location A holds stop 1 (visited by trip T1), location B holds
stop 2; no trip visits both. -/
def exC9stops : List Stop :=
  [⟨"1", "S1", 0, 0, "A", "R"⟩, ⟨"2", "S2", 0, 0, "B", "R"⟩]

def exC9st : List StopTimeRow := [⟨"T1", "1", ⟨8, 0, 0⟩, ⟨8, 0, 0⟩, 1⟩]

/-- C9 fails on the code: with both locations known but no shared
trip, `find_connections` builds an empty record list and
`pd.DataFrame([]).sort_values('departure')` raises `KeyError` instead
of returning an empty result; `get_route_stops` returns `(None, None)`
rather than an empty result for an unknown route short name. -/
theorem find_connections_raises :
    find_connections exC9stops [] [] exC9st "A" "B" ⟨0, 0, 0⟩ =
      some (Except.error "KeyError: departure")
    ∧ get_route_stops [] [] [] [] "999" = none :=
  ⟨rfl, rfl⟩
